import Mathlib

/-!
Verification development for the character-grid animation runtime
(`ts-play-core`): the frame scheduler (`run.ts`), the cell-buffer module
(`modules/buffer.ts`) and the diffing text renderer (`core/textrenderer.ts`).

Modelling conventions (shallow embedding of the TypeScript source):

* JavaScript numbers are modelled as `ℚ` (exact rational arithmetic); the
  source never relies on floating-point rounding for the claimed behaviour.
* A JavaScript object of cell shape is modelled as a record of the fields
  this codebase reads or writes (`char`, `color`, `backgroundColor`,
  `fontWeight`, and `text` for the text-insertion helper).  A field holds
  `none` when the property is absent or `undefined`.
* Object spread `{...a, ...b}` is modelled field-wise: `b`'s present
  fields win, `a`'s are kept otherwise (`spreadCells`).
* A JavaScript array is modelled as a `List` of `Option`-values, where
  `none` is a hole / `undefined` entry; writing past the end pads with
  holes exactly like a JS assignment `arr[i] = v` with `i ≥ arr.length`.
-/

/-- A glyph value: the source allows `char` (and `fontWeight`) to be a
string or a number (`char?: string | number`). -/
inductive GlyphVal where
  | str (s : String)
  | num (q : ℚ)
deriving DecidableEq, Repr

/-- A cell object: the fields of the `Cell` interface of `types.ts`
(`char?`, `color?`, `backgroundColor?`, `fontWeight?`) plus the `text`
field that `buffer.ts`'s `TextObject` adds on top of `Partial<Cell>`.
`none` models an absent / `undefined` property. -/
structure Cell where
  char : Option GlyphVal := none
  color : Option String := none
  backgroundColor : Option String := none
  fontWeight : Option GlyphVal := none
  text : Option String := none
deriving DecidableEq, Repr

/-- Right-biased merge of one optional field, as object spread does:
the right operand's present field wins. -/
def oMerge {α : Type} (a b : Option α) : Option α :=
  match b with
  | some v => some v
  | none => a

/-- Object spread `{...a, ...b}` on two cell objects, field-wise. -/
def spreadCells (a b : Cell) : Cell :=
  { char := oMerge a.char b.char
    color := oMerge a.color b.color
    backgroundColor := oMerge a.backgroundColor b.backgroundColor
    fontWeight := oMerge a.fontWeight b.fontWeight
    text := oMerge a.text b.text }

/-- The empty object `{}` as a cell (every field absent). -/
def emptyObj : Cell := {}

namespace jsarray

/-- Read `arr[i]` of a JS array: `none` is `undefined` (hole or past the
end). -/
def jsGet {α : Type} (l : List (Option α)) (i : ℕ) : Option α :=
  (l[i]?).getD none

/-- Write `arr[i] = v` on a JS array: in range it overwrites, past the
end it pads the array with holes (`undefined`) up to `i` and appends. -/
def jsSet {α : Type} (l : List (Option α)) (i : ℕ) (v : α) : List (Option α) :=
  if i < l.length then l.set i (some v)
  else l ++ List.replicate (i - l.length) none ++ [some v]

end jsarray

open jsarray

/-! ## The cell-buffer module (`src/modules/buffer.ts`) -/

namespace buffer

/-- An entry of the buffer module's `Buffer = CellValue[]` where
`CellValue = string | Cell`; `prim` also covers a stray number, for which
`typeof` is likewise not `'object'`. -/
inductive CellValue where
  | prim (g : GlyphVal)
  | obj (c : Cell)
deriving DecidableEq, Repr

/-- A JS array of cell values (holes / `undefined` entries are `none`). -/
abbrev BBuf : Type := List (Option CellValue)

/-- Safe read (`get` of `buffer.ts`): returns the empty object `{}` if
the coordinates are out of bounds, else the raw array entry (which may be
`undefined`, i.e. `none`).  Never throws: it is a total function. -/
def get (x y : ℤ) (target : BBuf) (targetCols targetRows : ℤ) : Option CellValue :=
  if x < 0 ∨ x ≥ targetCols then some (.obj emptyObj)
  else if y < 0 ∨ y ≥ targetRows then some (.obj emptyObj)
  else jsGet target (x + y * targetCols).toNat

/-- Safe write (`set` of `buffer.ts`): does nothing if out of bounds.
Never throws: it is a total function. -/
def set (val : CellValue) (x y : ℤ) (target : BBuf) (targetCols targetRows : ℤ) : BBuf :=
  if x < 0 ∨ x ≥ targetCols then target
  else if y < 0 ∨ y ≥ targetRows then target
  else jsSet target (x + y * targetCols).toNat val

/-- Flattening step of `merge`: the *stored* entry is normalized,
`typeof target[i] === 'object' ? target[i] : { char: target[i] }`.
A hole (`undefined`) gives `{ char: undefined }`, i.e. all fields absent. -/
def flattenStored : Option CellValue → Cell
  | some (.obj c) => c
  | some (.prim g) => { char := some g }
  | none => { char := none }

/-- `merge` of `buffer.ts`: no-op out of bounds; otherwise the stored
entry is flattened to an object and `target[i] = { ...cell, ...val }`.
When `val` is a bare string (or number), the spread `...val` contributes
only numeric-string keys (the string's characters) and no named field,
so the named fields of the result are exactly those of the flattened
stored cell; in particular `char` is *not* set to `val`. -/
def merge (val : CellValue) (x y : ℤ) (target : BBuf) (targetCols targetRows : ℤ) : BBuf :=
  if x < 0 ∨ x ≥ targetCols then target
  else if y < 0 ∨ y ≥ targetRows then target
  else
    let i := (x + y * targetCols).toNat
    let cell := flattenStored (jsGet target i)
    match val with
    | .obj v => jsSet target i (.obj (spreadCells cell v))
    | .prim _ => jsSet target i (.obj cell)

/-- The per-line bookkeeping record of `mergeText` (`WrapInfo`). -/
structure WrapInfo where
  first : Option CellValue
  last : Option CellValue
deriving DecidableEq, Repr

/-- The result record of `mergeText` (`MergeTextResult`). -/
structure MergeTextResult where
  offsetCol : ℤ
  offsetRow : ℤ
  wrapInfo : List WrapInfo
deriving DecidableEq, Repr

/-- Argument of `mergeText`: `TextObject | string`.  The `TextObject`
case is a cell object with a mandatory `text` field. -/
inductive TextArg where
  | strArg (s : String)
  | objArg (c : Cell) (text : String)
deriving DecidableEq, Repr

/-- The value merged for one character, as a cell: `{ char, ...mergeObj }`.
With no merge object (plain-string argument) this is just `{ char }`;
otherwise `mergeObj`'s fields are spread *after* `char` and win on
conflict. -/
def cvCell (c : Char) (mObj : Option Cell) : Cell :=
  match mObj with
  | none => { char := some (.str (String.singleton c)) }
  | some m => spreadCells { char := some (.str (String.singleton c)) } m

/-- The value merged for one character (always a cell object). -/
def charVal (c : Char) (mObj : Option Cell) : CellValue :=
  .obj (cvCell c mObj)

/-- The cell an in-bounds `merge` stores: the flattened previous entry
spread with an object argument; for a bare-glyph argument just the
flattened previous entry (the string spread adds no named field). -/
def mergeResultCell (val : CellValue) (old : Option CellValue) : Cell :=
  match val with
  | .obj v => spreadCells (flattenStored old) v
  | .prim _ => flattenStored old

/-- The inner `line.split('').forEach((char, charNum) => ...)` loop of
`mergeText`: merges each character at column `x + charNum`, threading the
`col` variable (unchanged by an empty line) and the target buffer. -/
def mergeLineChars (mObj : Option Cell) (x row : ℤ) (targetCols targetRows : ℤ) :
    List Char → ℕ → ℤ → BBuf → ℤ × BBuf
  | [], _, col, tgt => (col, tgt)
  | c :: cs, charNum, _, tgt =>
      let col := x + (charNum : ℤ)
      let tgt := merge (charVal c mObj) col row tgt targetCols targetRows
      mergeLineChars mObj x row targetCols targetRows cs (charNum + 1) col tgt

/-- Helper for `splitLines`: returns the first line (up to the first
line break) and the remaining lines. -/
def splitLinesAux : List Char → List Char × List (List Char)
  | [] => ([], [])
  | c :: cs =>
      let p := splitLinesAux cs
      if c = '\n' then ([], p.1 :: p.2) else (c :: p.1, p.2)

/-- JavaScript's `text.split('\n')` on the character sequence of a
string: always at least one (possibly empty) line; a line's characters
are exactly what `line.split('')` yields. -/
def splitLines (s : List Char) : List (List Char) :=
  (splitLinesAux s).1 :: (splitLinesAux s).2

/-- The outer `text.split('\n').forEach((line, lineNum) => ...)` loop of
`mergeText`: merges each line, records the first / last inserted cell of
the line (read back with `get` after the merge), and advances `row`. -/
def mergeTextLines (mObj : Option Cell) (x : ℤ) (targetCols targetRows : ℤ) :
    List (List Char) → ℤ → ℤ → List WrapInfo → BBuf → ℤ × ℤ × List WrapInfo × BBuf
  | [], col, row, ws, tgt => (col, row, ws, tgt)
  | line :: rest, col, row, ws, tgt =>
      let p := mergeLineChars mObj x row targetCols targetRows line 0 col tgt
      let first := get x row p.2 targetCols targetRows
      let last := get (x + (line.length : ℤ) - 1) row p.2 targetCols targetRows
      mergeTextLines mObj x targetCols targetRows rest p.1 (row + 1)
        (ws ++ [⟨first, last⟩]) p.2

/-- The `text` string of a `mergeText` argument. -/
def textStrOf : TextArg → String
  | .strArg s => s
  | .objArg _ t => t

/-- The merge object of a `mergeText` argument: `{...textObj}` with the
`text` property deleted for an object argument, or nothing for a plain
string. -/
def mObjOf : TextArg → Option Cell
  | .strArg _ => none
  | .objArg c _ => some { c with text := none }

/-- `mergeText` of `buffer.ts`.  Returns the result record together with
the new buffer (the source mutates `target` in place). -/
def mergeText (textObj : TextArg) (x y : ℤ) (target : BBuf)
    (targetCols targetRows : ℤ) : MergeTextResult × BBuf :=
  let r := mergeTextLines (mObjOf textObj) x targetCols targetRows
    (splitLines (textStrOf textObj).data) x y [] target
  let row := max y (r.2.1 - 1)
  (⟨r.1, row, r.2.2.1⟩, r.2.2.2)

end buffer

/-! ## The diffing text renderer (`src/core/textrenderer.ts`) -/

namespace textrenderer

/-- `isSameCell` of `textrenderer.ts`.  A missing (`undefined`) cell is
never equal to anything (`typeof undefined` is not `'object'`); two cell
objects are compared on `char`, `fontWeight`, `color`, `backgroundColor`
(the `text` and markup fields are not compared). -/
def isSameCell (cellA cellB : Option Cell) : Bool :=
  match cellA, cellB with
  | some a, some b =>
      a.char == b.char && a.fontWeight == b.fontWeight &&
      a.color == b.color && a.backgroundColor == b.backgroundColor
  | _, _ => false

/-- `{ ...newCell }`: copying a cell object, where copying `undefined`
gives the empty object `{}`. -/
def spreadCopy : Option Cell → Cell
  | some c => c
  | none => emptyObj

/-- The module-scoped state of the text renderer: the `cols` / `rows`
variables (initially `undefined`) and the shadow `backBuffer`. -/
structure TRState where
  cols : Option ℕ
  rows : Option ℕ
  back : List (Option Cell)
deriving DecidableEq, Repr

/-- The inner per-row comparison loop (`for i in 0..cols`): walks the
cells of the row at offset `offs`, committing a shadow copy for each cell
that differs from the shadow and raising the `rowNeedsUpdate` flag.
`renderCells buffer offs back n` processes cell indices `0..n-1` of the
row in increasing order, like the source loop. -/
def renderCells (buffer : List Cell) (offs : ℕ) (back : List (Option Cell)) :
    ℕ → List (Option Cell) × Bool
  | 0 => (back, false)
  | n + 1 =>
      let p := renderCells buffer offs back n
      let idx := n + offs
      if isSameCell buffer[idx]? (jsGet p.1 idx) then p
      else (jsSet p.1 idx (spreadCopy buffer[idx]?), true)

/-- The outer `for j in 0..rows` loop: runs the per-row comparison, and
collects (in order) the indices of the rows whose content is rewritten
(`childNode.innerHTML = html`).  `renderRows buffer cols back r`
processes rows `0..r-1` in increasing order. -/
def renderRows (buffer : List Cell) (cols : ℕ) (back : List (Option Cell)) :
    ℕ → List (Option Cell) × List ℕ
  | 0 => (back, [])
  | j + 1 =>
      let p := renderRows buffer cols back j
      let q := renderCells buffer (j * cols) p.1 cols
      (q.1, if q.2 then p.2 ++ [j] else p.2)

/-- `render` of `textrenderer.ts`, as a state transformer: on a
dimension change the shadow buffer is cleared (forcing a full repaint),
then every row is compared to the shadow and rewritten only if needed.
Returns the new module state together with the list of rewritten row
indices (the rows whose line element receives a new `innerHTML`). -/
def render (ctxCols ctxRows : ℕ) (buffer : List Cell) (st : TRState) :
    TRState × List ℕ :=
  let back := if st.rows ≠ some ctxRows ∨ st.cols ≠ some ctxCols then [] else st.back
  let p := renderRows buffer ctxCols back ctxRows
  (⟨some ctxCols, some ctxRows, p.1⟩, p.2)

/-- One row differs from the shadow: some cell of row `j` differs (in
`char`, `fontWeight`, `color` or `backgroundColor`) from the shadow. -/
def rowDiff (buffer : List Cell) (back : List (Option Cell)) (cols j : ℕ) : Prop :=
  ∃ i < cols, isSameCell buffer[i + j * cols]? (jsGet back (i + j * cols)) = false

instance rowDiffDecidable (buffer : List Cell) (back : List (Option Cell)) (cols j : ℕ) :
    Decidable (rowDiff buffer back cols j) := by
  unfold rowDiff; infer_instance

end textrenderer

/-! ## The scheduler / program runner (`run.ts`) -/

namespace runner

/-- Truncating division result as JavaScript `%` uses it: the quotient is
rounded toward zero. -/
def jsTrunc (q : ℚ) : ℤ :=
  if 0 ≤ q then ⌊q⌋ else ⌈q⌉

/-- JavaScript's remainder operator `a % b` on numbers: the remainder has
the sign of the dividend, `a - b * trunc(a / b)`. -/
def jsMod (a b : ℚ) : ℚ :=
  a - b * jsTrunc (a / b)

/-- The part of the module-scoped `pointer` object owned by the loop: the
previous-frame raw offset and pressed state (`px`, `py`, `ppressed`). -/
structure PointerPrev where
  px : ℚ
  py : ℚ
  ppressed : Bool
deriving DecidableEq, Repr

/-- The `p` component of a cursor (the previous-frame snapshot).  By
construction it has no nested `p` of its own: `previous.previous` can
never be populated. -/
structure PCursor where
  x : ℚ
  y : ℚ
  pressed : Bool
deriving DecidableEq, Repr

/-- The per-frame cursor handed to the hooks. -/
structure Cursor where
  x : ℚ
  y : ℚ
  pressed : Bool
  p : PCursor
deriving DecidableEq, Repr

/-- The coordinate `{x, y, index}` passed to the `main` hook. -/
structure Coordinate where
  x : ℕ
  y : ℕ
  index : ℕ
deriving DecidableEq, Repr

/-- The value returned by the `main` hook:
`string | number | Partial<Cell> | null | undefined`.  `nullish` covers
both `null` and `undefined` (for neither is `typeof out == 'object' &&
out !== null` true, and both make `char` falsy). -/
inductive MainOut where
  | glyph (g : GlyphVal)
  | obj (o : Cell)
  | nullish
deriving DecidableEq, Repr

/-- JavaScript truthiness of a `char` value: `undefined`, the empty
string and the number `0` are falsy; every other reachable value is
truthy. -/
def charFalsy : Option GlyphVal → Bool
  | none => true
  | some (.str s) => s == ""
  | some (.num q) => q == 0

/-- The `char` fix-up after a `main` write:
`if (!Boolean(buffer[idx].char) && buffer[idx].char !== 0) char = ' '`. -/
def fixCellChar (c : Cell) : Cell :=
  if charFalsy c.char && c.char != some (.num 0) then { c with char := some (.str " ") }
  else c

/-- The per-cell handling of one `main` return value (lines 359-368 of
the runner): an object is spread over the existing cell, anything else is
written into `char`, and then the falsy-`char` fix-up runs. -/
def applyMainCell (prior : Cell) (out : MainOut) : Cell :=
  let merged :=
    match out with
    | .obj o => spreadCells prior o
    | .glyph g => { prior with char := some g }
    | .nullish => { prior with char := none }
  fixCellChar merged

/-- The inner `for i in 0..cols` loop of the `main` pass on row `j`:
`mainCells f cursor cols j buf n` processes columns `0..n-1` in
increasing order, calling the hook with the current buffer and writing
the handled result back at `idx = i + j*cols`. -/
def mainCells (f : Coordinate → Cursor → List Cell → MainOut) (cursor : Cursor)
    (cols j : ℕ) (buf : List Cell) : ℕ → List Cell
  | 0 => buf
  | i + 1 =>
      let b := mainCells f cursor cols j buf i
      let idx := i + j * cols
      b.set idx (applyMainCell (b.getD idx {}) (f ⟨i, j, idx⟩ cursor b))

/-- The outer `for j in 0..rows` loop of the `main` pass. -/
def mainRows (f : Coordinate → Cursor → List Cell → MainOut) (cursor : Cursor)
    (cols : ℕ) (buf : List Cell) : ℕ → List Cell
  | 0 => buf
  | j + 1 => mainCells f cursor cols j (mainRows f cursor cols buf j) cols

/-- The whole `main` pass: every cell in row-major order. -/
def mainPass (f : Coordinate → Cursor → List Cell → MainOut) (cursor : Cursor)
    (cols rows : ℕ) (buf : List Cell) : List Cell :=
  mainRows f cursor cols buf rows

/-- The fixed configuration of one `run` invocation: fps cap, restored
time offset, cell metrics, the default cell style derived from the
settings, and the optional hooks. -/
structure Params where
  fps : ℚ
  timeOffset : ℚ
  cellWidth : ℚ
  lineHeight : ℚ
  defaultStyle : Cell
  preF : Option (Cursor → List Cell → List Cell)
  mainF : Option (Coordinate → Cursor → List Cell → MainOut)
  postF : Option (Cursor → List Cell → List Cell)

/-- The environment of one animation-frame callback: the timestamp, the
grid dimensions measured from the DOM this frame (`context.cols/rows`),
and the current raw pointer state (`pointer.x/y/pressed`, as left by the
DOM event listeners). -/
structure Tick where
  t : ℚ
  ctxCols : ℕ
  ctxRows : ℕ
  ptrX : ℚ
  ptrY : ℚ
  pressed : Bool
deriving DecidableEq, Repr

/-- The mutable state owned by the loop across frames: the timing
sample, the persisted `state` record (`time`, `frame`), the `cols`/`rows`
resize trackers (initially `undefined`), the cell buffer, and the
previous-pointer fields. -/
structure RunState where
  timeSample : ℚ
  time : ℚ
  frame : ℕ
  cols : Option ℕ
  rows : Option ℕ
  buffer : List Cell
  pointerPrev : PointerPrev
deriving Repr

/-- The cursor built at the start of an accepted frame (lines 315-326):
the current raw offset divided by the metrics and clamped *above* with
`Math.min` to the last valid column / row; the `p` snapshot is the
previous raw offset divided by the metrics, with no clamp applied. -/
def frameCursor (P : Params) (st : RunState) (tk : Tick) : Cursor :=
  { x := min ((tk.ctxCols : ℚ) - 1) (tk.ptrX / P.cellWidth)
    y := min ((tk.ctxRows : ℚ) - 1) (tk.ptrY / P.lineHeight)
    pressed := tk.pressed
    p := { x := st.pointerPrev.px / P.cellWidth
           y := st.pointerPrev.py / P.lineHeight
           pressed := st.pointerPrev.ppressed } }

/-- The default empty cell a resize fills the buffer with:
`{ ...DEFAULT_CELL_STYLE, char: EMPTY_CELL }` (a single space plus the
settings' default style). -/
def defaultEmptyCell (P : Params) : Cell :=
  { P.defaultStyle with char := some (.str " ") }

/-- The resize / init normalization of the buffer (lines 335-342): when
the measured dimensions differ from the tracked ones the buffer length is
set to `cols*rows` and *every* entry is overwritten with the default
empty cell; otherwise the buffer is left alone. -/
def resizeBuffer (P : Params) (st : RunState) (tk : Tick) : List Cell :=
  if st.cols ≠ some tk.ctxCols ∨ st.rows ≠ some tk.ctxRows then
    List.replicate (tk.ctxCols * tk.ctxRows) (defaultEmptyCell P)
  else st.buffer

/-- Conditional invocation of an optional `pre` / `post` hook:
`if (typeof program.pre == 'function') program.pre(...)`; a missing hook
is simply skipped. -/
def hookApply (h : Option (Cursor → List Cell → List Cell)) (cursor : Cursor)
    (b : List Cell) : List Cell :=
  match h with
  | some f => f cursor b
  | none => b

/-- Conditional invocation of the optional `main` hook pass. -/
def mainApply (h : Option (Coordinate → Cursor → List Cell → MainOut))
    (cursor : Cursor) (cols rows : ℕ) (b : List Cell) : List Cell :=
  match h with
  | some f => mainPass f cursor cols rows b
  | none => b

/-- The accepted-frame body of `loop(t)`: timing update carrying the
remainder (`timeSample = t - delta % interval`), `time`/`frame` update,
cursor construction, previous-pointer snapshot, buffer resize, then the
`pre`, `main` and `post` hooks (each skipped when absent) and the
renderer (external to this state). -/
def loopBody (P : Params) (st : RunState) (tk : Tick) : RunState :=
  let interval := 1000 / P.fps
  let delta := tk.t - st.timeSample
  let cursor := frameCursor P st tk
  { timeSample := tk.t - jsMod delta interval
    time := tk.t + P.timeOffset
    frame := st.frame + 1
    cols := some tk.ctxCols
    rows := some tk.ctxRows
    buffer := hookApply P.postF cursor
      (mainApply P.mainF cursor tk.ctxCols tk.ctxRows
        (hookApply P.preF cursor (resizeBuffer P st tk)))
    pointerPrev := ⟨tk.ptrX, tk.ptrY, tk.pressed⟩ }

/-- One invocation of `loop(t)` (lines 292-399).  The time gate: if the
elapsed time since the last accepted tick is below `1000/fps` the frame
is skipped and the state is returned untouched (the source only
reschedules and returns); otherwise the accepted-frame body runs. -/
def loopStep (P : Params) (st : RunState) (tk : Tick) : RunState :=
  if tk.t - st.timeSample < 1000 / P.fps then st else loopBody P st tk

/-- The state at boot with default settings (`restoreState` off): the
`state` record is all zeros, `cols`/`rows` are still `undefined`, the
buffer is the empty array and the pointer has never moved. -/
def initState : RunState :=
  { timeSample := 0, time := 0, frame := 0, cols := none, rows := none
    buffer := [], pointerPrev := ⟨0, 0, false⟩ }

/-- Folding the loop over a sequence of animation-frame callbacks. -/
def runTicks (P : Params) (st : RunState) : List Tick → RunState
  | [] => st
  | tk :: rest => runTicks P (loopStep P st tk) rest

end runner

/-! ## Promise settlement of `run` (error-handling model for the
user-hook exception claim)

The source wraps everything in `new Promise(function (resolve) {...})`
(line 98): only `resolve` is bound, `reject` is never taken, and no user
hook runs synchronously inside the executor — `boot` fires from a
`document.fonts.ready` / `requestAnimationFrame` chain and `loop` from
`requestAnimationFrame`.  An exception thrown by a user hook therefore
propagates out of a host callback, uncaught: it cannot settle the
promise, and it aborts the loop body before the reschedule call (line
394) and the `resolve` call (line 398) are reached. -/

namespace promisemodel

/-- Settlement state of the readiness promise returned by `run`. -/
inductive PromiseState where
  | pending
  | resolved
  | rejected
deriving DecidableEq, Repr

/-- Drives up to `fuel` animation-frame callbacks.  `throws n` says that
a user hook throws during the `n`-th accepted frame.  On a throw the
callback dies before rescheduling and before `resolve`, so the session
stops with the promise untouched; on success `resolve` runs (settling the
promise only if it is still pending) and the loop reschedules.  Returns
the promise state and the number of completed frames. -/
def session (throws : ℕ → Bool) : ℕ → PromiseState → ℕ → PromiseState × ℕ
  | 0, p, n => (p, n)
  | fuel + 1, p, n =>
      if throws n then (p, n)
      else session throws fuel (if p = .pending then .resolved else p) (n + 1)

end promisemodel

/-! ## Concrete fixtures used by the example parts of the claims -/

/-- A run configuration with the default settings (`fps: 30`), unit cell
metrics and no hooks. -/
def fxParams : runner.Params :=
  { fps := 30, timeOffset := 0, cellWidth := 1, lineHeight := 1
    defaultStyle := {}, preF := none, mainF := none, postF := none }

/-- The first `m` simulated animation-frame timestamps, one every 10 ms. -/
def fxTicksUpTo (m : ℕ) : List runner.Tick :=
  (List.range m).map (fun k => ⟨((10 * (k + 1) : ℕ) : ℚ), 0, 0, 0, 0, false⟩)

/-- Simulated animation-frame timestamps every 10 ms for 1000 ms. -/
def fxTicks : List runner.Tick := fxTicksUpTo 100

/-- First accepted tick of the cursor counterexample: on a 2x2 grid with
unit metrics the raw pointer offset 5 lies beyond the last column. -/
def fxTickP1 : runner.Tick := ⟨40, 2, 2, 5, 0, false⟩

/-- Second accepted tick of the cursor counterexample. -/
def fxTickP2 : runner.Tick := ⟨80, 2, 2, 0, 0, false⟩

/-- First tick of the cursor example: pointer at grid position (1,1). -/
def fxTickA : runner.Tick := ⟨40, 10, 10, 1, 1, false⟩

/-- Second tick of the cursor example: pointer at grid position (2,2). -/
def fxTickB : runner.Tick := ⟨80, 10, 10, 2, 2, false⟩

/-- A tick measuring a 2x3 grid (for the resize example). -/
def fxTick23 : runner.Tick := ⟨40, 2, 3, 0, 0, false⟩

/-- An unchanged filler cell for the renderer example. -/
def fxCellA : Cell := { char := some (.str "a") }

/-- The changed cell for the renderer example. -/
def fxCellB : Cell := { char := some (.str "b") }

/-- Previous frame of the renderer example: 3 columns x 10 rows of `a`. -/
def fxOldFrame : List Cell := List.replicate 30 fxCellA

/-- Current frame of the renderer example: identical except one cell of
row 2. -/
def fxNewFrame : List Cell :=
  List.replicate 6 fxCellA ++ [fxCellB] ++ List.replicate 23 fxCellA

/-- Renderer state after the previous frame at unchanged 3x10 grid
dimensions: the shadow holds the previous frame. -/
def fxTRState : textrenderer.TRState := ⟨some 3, some 10, fxOldFrame.map some⟩

/-- A 2x2 buffer of default space cells. -/
def fxBuf22 : buffer.BBuf :=
  List.replicate 4 (some (.obj { char := some (.str " ") }))

/-! ## Helper lemmas on the JS-array model -/

theorem jsarray.jsGet_jsSet_self {α : Type} (l : List (Option α)) (i : ℕ) (v : α) :
    jsGet (jsSet l i v) i = some v := by
  unfold jsGet jsSet
  by_cases h : i < l.length
  · simp [h, List.getElem?_set]
  · simp only [if_neg h]
    have hxl : (l ++ List.replicate (i - l.length) (none : Option α)).length = i := by
      simp [List.length_append, List.length_replicate]; omega
    rw [List.getElem?_append, hxl]
    simp

theorem jsarray.jsGet_jsSet_ne {α : Type} (l : List (Option α)) (i j : ℕ) (v : α)
    (h : j ≠ i) : jsGet (jsSet l i v) j = jsGet l j := by
  unfold jsGet jsSet
  by_cases hi : i < l.length
  · simp only [if_pos hi]
    rw [List.getElem?_set]
    simp [Ne.symm h]
  · simp only [if_neg hi]
    have hxl : (l ++ List.replicate (i - l.length) (none : Option α)).length = i := by
      simp [List.length_append, List.length_replicate]; omega
    rw [List.getElem?_append, hxl]
    by_cases hji : j < i
    · rw [if_pos hji, List.getElem?_append]
      by_cases hjl : j < l.length
      · rw [if_pos hjl]
      · rw [if_neg hjl, List.getElem?_replicate, if_pos (by omega)]
        rw [List.getElem?_eq_none (by omega)]
        rfl
    · rw [if_neg hji]
      rw [List.getElem?_eq_none (by simp only [List.length_cons, List.length_nil]; omega)]
      rw [List.getElem?_eq_none (by omega)]

theorem jsarray.length_jsSet {α : Type} (l : List (Option α)) (i : ℕ) (v : α) :
    (jsSet l i v).length = max l.length (i + 1) := by
  unfold jsSet
  by_cases h : i < l.length
  · simp [h]; omega
  · simp [h, List.length_append, List.length_replicate]; omega

/-! ## C7 - safe get / set -/

/-- C7: for every buffer and every in-bounds coordinate, `get` after
`set v` returns `v`; for every out-of-bounds coordinate `set` leaves the
buffer unchanged and `get` returns the empty-object sentinel (both are
total functions, so neither can throw). -/
theorem c7_get_set_safety (v : buffer.CellValue) (target : buffer.BBuf)
    (cols rows x y : ℤ)
    (hx0 : 0 ≤ x) (hxc : x < cols) (hy0 : 0 ≤ y) (hyr : y < rows) :
    buffer.get x y (buffer.set v x y target cols rows) cols rows = some v ∧
    (∀ x' y' : ℤ, ¬ (0 ≤ x' ∧ x' < cols ∧ 0 ≤ y' ∧ y' < rows) →
      buffer.set v x' y' target cols rows = target ∧
      buffer.get x' y' target cols rows = some (.obj emptyObj)) := by
  constructor
  · have hnx : ¬ (x < 0 ∨ x ≥ cols) := by omega
    have hny : ¬ (y < 0 ∨ y ≥ rows) := by omega
    unfold buffer.get buffer.set
    simp only [if_neg hnx, if_neg hny]
    exact jsarray.jsGet_jsSet_self target _ v
  · intro x' y' hoob
    by_cases h1 : x' < 0 ∨ x' ≥ cols
    · exact ⟨by unfold buffer.set; rw [if_pos h1], by unfold buffer.get; rw [if_pos h1]⟩
    · have h2 : y' < 0 ∨ y' ≥ rows := by omega
      exact ⟨by unfold buffer.set; rw [if_neg h1, if_pos h2],
             by unfold buffer.get; rw [if_neg h1, if_pos h2]⟩

/-- Witness for C7 at a concrete input: a 2x2 buffer, coordinate (1,1). -/
theorem c7_get_set_safety_witness :
    buffer.get 1 1 (buffer.set (.prim (.str "A")) 1 1 fxBuf22 2 2) 2 2
      = some (.prim (.str "A")) :=
  (c7_get_set_safety (.prim (.str "A")) fxBuf22 2 2 1 1
    (by decide) (by decide) (by decide) (by decide)).1

/-! ## C6 - merge -/

/-- C6 counterexample: merging the bare glyph `'A'` onto a cell holding
`'B'` does *not* store `{char:'A'}`: the existing cell is left with
`char = 'B'` (the string argument is spread as an object, contributing
only numeric keys).  The claim's predicted result `{char:'A'}` is not
what the code stores. -/
theorem c6_counterexample :
    buffer.merge (.prim (.str "A")) 0 0 [some (.obj { char := some (.str "B") })] 1 1
      = [some (.obj { char := some (.str "B") })] ∧
    some (buffer.CellValue.obj { char := some (.str "B") })
      ≠ some (buffer.CellValue.obj { char := some (.str "A") }) := by
  constructor
  · decide
  · decide

/-- C6 (amended): for every in-bounds coordinate, `merge(v,x,y)` stores
at index `x + y*cols` the previously stored entry — normalized from a
bare glyph to `{char: glyph}` if necessary — shallow-merged with `v`
when `v` is a cell object, and unchanged in all named fields when `v` is
a bare glyph (whose spread contributes no named field); every other
index is untouched, and out-of-bounds coordinates are a no-op. -/
theorem c6_merge_amended (val : buffer.CellValue) (x y : ℤ) (target : buffer.BBuf)
    (cols rows : ℤ)
    (hx0 : 0 ≤ x) (hxc : x < cols) (hy0 : 0 ≤ y) (hyr : y < rows) :
    jsGet (buffer.merge val x y target cols rows) (x + y * cols).toNat
      = some (.obj (buffer.mergeResultCell val (jsGet target (x + y * cols).toNat))) ∧
    (∀ j : ℕ, j ≠ (x + y * cols).toNat →
      jsGet (buffer.merge val x y target cols rows) j = jsGet target j) ∧
    (∀ (val' : buffer.CellValue) (x' y' : ℤ),
      ¬ (0 ≤ x' ∧ x' < cols ∧ 0 ≤ y' ∧ y' < rows) →
      buffer.merge val' x' y' target cols rows = target) := by
  have hnx : ¬ (x < 0 ∨ x ≥ cols) := by omega
  have hny : ¬ (y < 0 ∨ y ≥ rows) := by omega
  refine ⟨?_, ?_, ?_⟩
  · unfold buffer.merge
    simp only [if_neg hnx, if_neg hny]
    cases val with
    | obj v => simp only [buffer.mergeResultCell]; exact jsarray.jsGet_jsSet_self ..
    | prim g => simp only [buffer.mergeResultCell]; exact jsarray.jsGet_jsSet_self ..
  · intro j hj
    unfold buffer.merge
    simp only [if_neg hnx, if_neg hny]
    cases val with
    | obj v => exact jsarray.jsGet_jsSet_ne _ _ _ _ hj
    | prim g => exact jsarray.jsGet_jsSet_ne _ _ _ _ hj
  · intro val' x' y' hoob
    by_cases h1 : x' < 0 ∨ x' ≥ cols
    · unfold buffer.merge; rw [if_pos h1]
    · have h2 : y' < 0 ∨ y' ≥ rows := by omega
      unfold buffer.merge; rw [if_neg h1, if_pos h2]

/-- Witness for the amended C6 at a concrete input: merging the object
`{color:'red'}` onto a 1x1 buffer holding the bare glyph `'B'` yields
`{char:'B', color:'red'}` (the stored glyph is normalized, `v`'s field
is merged on top). -/
theorem c6_merge_amended_witness :
    jsGet (buffer.merge (.obj { color := some "red" }) 0 0
        [some (.prim (.str "B"))] 1 1) 0
      = some (.obj { char := some (.str "B"), color := some "red" }) := by
  have h := (c6_merge_amended (.obj { color := some "red" }) 0 0
    [some (.prim (.str "B"))] 1 1 (by decide) (by decide) (by decide) (by decide)).1
  simpa using h

/-! ## C5 - user-hook exceptions and the readiness promise -/

/-- Helper: the session never turns a non-rejected promise into a
rejected one (nothing in the callback chain can call a reject handler:
the executor binds only `resolve`). -/
theorem promisemodel.session_ne_rejected (throws : ℕ → Bool) (fuel : ℕ) :
    ∀ (p : promisemodel.PromiseState) (n : ℕ), p ≠ .rejected →
      (promisemodel.session throws fuel p n).1 ≠ .rejected := by
  induction fuel with
  | zero => intro p n hp; exact hp
  | succ f ih =>
      intro p n hp
      by_cases ht : throws n = true
      · simpa [promisemodel.session, ht] using hp
      · have ht' : throws n = false := by simpa using ht
        simp only [promisemodel.session, ht', Bool.false_eq_true, if_false]
        apply ih
        by_cases hp2 : p = .pending
        · simp [hp2]
        · simpa [hp2] using hp

/-- C5: in the session model of `run`'s promise and callback chain, a
hook exception on the very first frame leaves the readiness promise
*pending* forever (with zero completed frames) — it does not reject it,
because the executor binds only `resolve` and hooks run inside host
callbacks; the promise can never become rejected from any throw pattern;
a throw on any frame stops the session there (the reschedule at the end
of the loop body is never reached); a throw on a later frame (here the
sixth) leaves the promise resolved with exactly that many completed
frames. -/
theorem c5_hook_exception_model :
    (∀ fuel, promisemodel.session (fun n => n == 0) fuel .pending 0 = (.pending, 0)) ∧
    (∀ (throws : ℕ → Bool) (fuel n : ℕ),
        (promisemodel.session throws fuel .pending n).1 ≠ .rejected ∧
        (promisemodel.session throws fuel .resolved n).1 ≠ .rejected) ∧
    (∀ (throws : ℕ → Bool) (fuel : ℕ) (p : promisemodel.PromiseState) (n : ℕ),
        throws n = false ∨ promisemodel.session throws (fuel + 1) p n = (p, n)) ∧
    promisemodel.session (fun n => n == 5) 10 .pending 0 = (.resolved, 5) := by
  refine ⟨?_, ?_, ?_, ?_⟩
  · intro fuel
    cases fuel with
    | zero => rfl
    | succ f => simp [promisemodel.session]
  · intro throws fuel n
    exact ⟨promisemodel.session_ne_rejected throws fuel .pending n (by simp),
           promisemodel.session_ne_rejected throws fuel .resolved n (by simp)⟩
  · intro throws fuel p n
    by_cases ht : throws n = true
    · right
      simp [promisemodel.session, ht]
    · left
      simpa using ht
  · decide

/-! ## C3 - per-cell main-hook return handling -/

/-- C3: for the per-cell handling of a `main` return value: a returned
object is shallow-merged onto the existing cell (its absent fields leave
the prior fields intact, in particular the prior `char` when it is a
non-falsy glyph or the number `0`); a returned bare glyph other than the
empty string replaces only the `char` field; a returned nullish value or
empty string coerces `char` to the single-space empty glyph; a returned
numeric `0` is preserved as the glyph value. -/
theorem c3_main_return_contract (prior o : Cell) (g : GlyphVal)
    (hprior : runner.charFalsy prior.char = false ∨ prior.char = some (.num 0))
    (hg : g ≠ .str "") :
    (o.char = none → (runner.applyMainCell prior (.obj o)).char = prior.char) ∧
    (runner.applyMainCell prior (.obj o)).color = oMerge prior.color o.color ∧
    (runner.applyMainCell prior (.obj o)).backgroundColor
      = oMerge prior.backgroundColor o.backgroundColor ∧
    (runner.applyMainCell prior (.obj o)).fontWeight
      = oMerge prior.fontWeight o.fontWeight ∧
    runner.applyMainCell prior (.glyph g) = { prior with char := some g } ∧
    runner.applyMainCell prior .nullish = { prior with char := some (.str " ") } ∧
    runner.applyMainCell prior (.glyph (.str ""))
      = { prior with char := some (.str " ") } ∧
    runner.applyMainCell prior (.glyph (.num 0))
      = { prior with char := some (.num 0) } := by
  have hfixOther : ∀ c : Cell,
      (runner.fixCellChar c).color = c.color ∧
      (runner.fixCellChar c).backgroundColor = c.backgroundColor ∧
      (runner.fixCellChar c).fontWeight = c.fontWeight := by
    intro c
    unfold runner.fixCellChar
    split
    · exact ⟨rfl, rfl, rfl⟩
    · exact ⟨rfl, rfl, rfl⟩
  have hfixKeep : ∀ c : Cell,
      (runner.charFalsy c.char = false ∨ c.char = some (.num 0)) →
      runner.fixCellChar c = c := by
    intro c hc
    unfold runner.fixCellChar
    rcases hc with hc | hc
    · rw [if_neg]; simp [hc]
    · rw [if_neg]; simp [hc]
  refine ⟨?_, ?_, ?_, ?_, ?_, ?_, ?_, ?_⟩
  · intro ho
    have hchar : (spreadCells prior o).char = prior.char := by
      simp [spreadCells, ho, oMerge]
    unfold runner.applyMainCell
    rw [hfixKeep _ (by rw [hchar]; exact hprior)]
    exact hchar
  · exact (hfixOther _).1
  · exact (hfixOther _).2.1
  · exact (hfixOther _).2.2
  · unfold runner.applyMainCell
    apply hfixKeep
    cases g with
    | str s =>
        left
        have : s ≠ "" := fun hs => hg (by rw [hs])
        simp [runner.charFalsy, this]
    | num q =>
        by_cases hq : q = 0
        · right; rw [hq]
        · left; simp [runner.charFalsy, hq]
  · unfold runner.applyMainCell runner.fixCellChar
    rw [if_pos (by simp [runner.charFalsy])]
  · unfold runner.applyMainCell runner.fixCellChar
    rw [if_pos (by simp [runner.charFalsy])]
  · unfold runner.applyMainCell runner.fixCellChar
    rw [if_neg (by simp [runner.charFalsy])]

/-- Witness for C3 at concrete inputs: prior cell `{char:'x',
color:'blue'}`, returned object `{color:'red'}` preserves the prior
char. -/
theorem c3_main_return_contract_witness :
    (runner.applyMainCell { char := some (.str "x"), color := some "blue" }
        (.obj { color := some "red" })).char = some (GlyphVal.str "x") :=
  (c3_main_return_contract { char := some (.str "x"), color := some "blue" }
      { color := some "red" } (.num 7)
      (Or.inl (by decide)) (by decide)).1 rfl

/-! ## C1 - the frame-rate time gate -/

/-- The quotient the accepted branch advances the time sample by is at
least one interval: helper facts about `jsMod` on an accepted delta. -/
theorem runner.timeSample_advance (s t fps : ℚ) (hfps : 0 < fps)
    (h : 1000 / fps ≤ t - s) :
    ∃ k : ℕ, 1 ≤ k ∧
      t - runner.jsMod (t - s) (1000 / fps) = s + (k : ℚ) * (1000 / fps) := by
  have hint : 0 < 1000 / fps := by positivity
  have hq : (1 : ℚ) ≤ (t - s) / (1000 / fps) := (one_le_div hint).mpr h
  have hfl : 1 ≤ ⌊(t - s) / (1000 / fps)⌋ := Int.le_floor.mpr (by exact_mod_cast hq)
  refine ⟨(⌊(t - s) / (1000 / fps)⌋).toNat, by omega, ?_⟩
  have hnn : 0 ≤ (t - s) / (1000 / fps) := le_trans zero_le_one hq
  have hcast : (((⌊(t - s) / (1000 / fps)⌋).toNat : ℕ) : ℚ)
      = ((⌊(t - s) / (1000 / fps)⌋ : ℤ) : ℚ) := by
    exact_mod_cast congrArg (fun z : ℤ => (z : ℚ)) (Int.toNat_of_nonneg (by omega))
  rw [hcast]
  unfold runner.jsMod runner.jsTrunc
  rw [if_pos hnn]
  ring

/-- Processing a concatenation of tick sequences is sequential. -/
theorem runner.runTicks_append (P : runner.Params) (st : runner.RunState)
    (l1 l2 : List runner.Tick) :
    runner.runTicks P st (l1 ++ l2)
      = runner.runTicks P (runner.runTicks P st l1) l2 := by
  induction l1 generalizing st with
  | nil => rfl
  | cons tk l ih => simp [runner.runTicks, ih]

/-- Closed form of the 10 ms-tick simulation at `fps = 30`: after the
first `m` ticks the accepted-tick sample sits at `interval * (3m/10)`
and the frame counter is `3m/10` (ticks at multiples of 10 ms, interval
`1000/30 = 100/3` ms: the `k`-th accepted tick is the first tick at or
after `k * 100/3` ms, i.e. `floor(3m/10)` accepted ticks happen within
the first `m` ticks). -/
theorem fxTicks_closed_form (m : ℕ) :
    (runner.runTicks fxParams runner.initState (fxTicksUpTo m)).timeSample
      = (1000 / 30 : ℚ) * ((3 * m) / 10 : ℕ) ∧
    (runner.runTicks fxParams runner.initState (fxTicksUpTo m)).frame
      = (3 * m) / 10 := by
  induction m with
  | zero =>
      constructor <;> simp [fxTicksUpTo, runner.runTicks, runner.initState]
  | succ m ih =>
      have hsplit : fxTicksUpTo (m + 1)
          = fxTicksUpTo m ++ [⟨((10 * (m + 1) : ℕ) : ℚ), 0, 0, 0, 0, false⟩] := by
        simp [fxTicksUpTo, List.range_succ]
      rw [hsplit, runner.runTicks_append]
      have hone : ∀ (st : runner.RunState) (tk : runner.Tick),
          runner.runTicks fxParams st [tk] = runner.loopStep fxParams st tk := by
        intro st tk; rfl
      rw [hone]
      set st := runner.runTicks fxParams runner.initState (fxTicksUpTo m) with hst
      obtain ⟨hts, hfr⟩ := ih
      set k := (3 * m) / 10 with hk
      set r := (3 * m) % 10 with hr
      have hdm : 10 * k + r = 3 * m := Nat.div_add_mod (3 * m) 10
      have hrlt : r < 10 := Nat.mod_lt _ (by norm_num)
      have hinterval : (1000 / 30 : ℚ) = 100 / 3 := by norm_num
      have hcq : (3 : ℚ) * m = 10 * k + r := by exact_mod_cast hdm.symm
      have hfthirty : fxParams.fps = 30 := rfl
      by_cases hcase : r < 7
      · -- the tick is skipped: elapsed time below the interval
        have hgate : (⟨((10 * (m + 1) : ℕ) : ℚ), 0, 0, 0, 0, false⟩ : runner.Tick).t
            - st.timeSample < 1000 / fxParams.fps := by
          rw [hts, hfthirty]
          have hrq : (r : ℚ) < 7 := by exact_mod_cast hcase
          push_cast
          linarith
        have hskip : runner.loopStep fxParams st
            ⟨((10 * (m + 1) : ℕ) : ℚ), 0, 0, 0, 0, false⟩ = st := by
          unfold runner.loopStep
          rw [if_pos hgate]
        rw [hskip]
        have hdiv : (3 * (m + 1)) / 10 = k := by omega
        rw [hdiv]
        exact ⟨hts, hfr⟩
      · -- the tick is accepted
        have hrge : (7 : ℚ) ≤ (r : ℚ) := by exact_mod_cast Nat.le_of_not_lt hcase
        have hgate : ¬ ((⟨((10 * (m + 1) : ℕ) : ℚ), 0, 0, 0, 0, false⟩ : runner.Tick).t
            - st.timeSample < 1000 / fxParams.fps) := by
          rw [hts, hfthirty]
          push_cast
          intro hcon
          linarith
        have hstep : runner.loopStep fxParams st
            ⟨((10 * (m + 1) : ℕ) : ℚ), 0, 0, 0, 0, false⟩ = runner.loopBody fxParams st
            ⟨((10 * (m + 1) : ℕ) : ℚ), 0, 0, 0, 0, false⟩ := by
          unfold runner.loopStep
          rw [if_neg hgate]
        rw [hstep]
        have hdiv : (3 * (m + 1)) / 10 = k + 1 := by omega
        constructor
        · show ((10 * (m + 1) : ℕ) : ℚ)
              - runner.jsMod (((10 * (m + 1) : ℕ) : ℚ) - st.timeSample)
                  (1000 / fxParams.fps)
            = (1000 / 30 : ℚ) * ((3 * (m + 1)) / 10 : ℕ)
          rw [hdiv, hts, hfthirty]
          have hq0 : (0 : ℚ) ≤ (((10 * (m + 1) : ℕ) : ℚ) - 1000 / 30 * (k : ℕ))
              / (1000 / 30) := by
            push_cast
            have h30 : (0 : ℚ) < 1000 / 30 := by norm_num
            apply div_nonneg _ (le_of_lt h30)
            linarith
          have hrq10 : (r : ℚ) < 10 := by exact_mod_cast hrlt
          have hfl1 : ⌊(((10 * (m + 1) : ℕ) : ℚ) - 1000 / 30 * (k : ℕ))
              / (1000 / 30)⌋ = 1 := by
            rw [Int.floor_eq_iff]
            constructor
            · push_cast
              rw [le_div_iff₀ (by norm_num : (0:ℚ) < 1000/30)]
              linarith
            · push_cast
              rw [div_lt_iff₀ (by norm_num : (0:ℚ) < 1000/30)]
              linarith
          unfold runner.jsMod runner.jsTrunc
          rw [if_pos hq0, hfl1]
          push_cast
          linarith
        · show st.frame + 1 = (3 * (m + 1)) / 10
          rw [hfr, hdiv]

/-- C1: the scheduler's time gate.  If the elapsed time since the last
accepted tick is below `1000/fps` the loop does no work at all (the
whole state — frame, time, buffer — is unchanged); otherwise the tick is
accepted, `frame` grows by exactly one, and the accepted-tick time
sample advances by an exact positive multiple of the interval (the
timing remainder is carried forward, so accepted samples stay on the
`1000/fps` grid and the average accepted rate stays correct).  With
`fps = 30` and simulated ticks every 10 ms, after 1000 ms the frame
counter is 30 = floor(1000 / (100/3)), not 100. -/
theorem c1_time_gate (P : runner.Params) (st : runner.RunState) (tk : runner.Tick)
    (hfps : 0 < P.fps) :
    (tk.t - st.timeSample < 1000 / P.fps → runner.loopStep P st tk = st) ∧
    (1000 / P.fps ≤ tk.t - st.timeSample →
      (runner.loopStep P st tk).frame = st.frame + 1 ∧
      ∃ k : ℕ, 1 ≤ k ∧
        (runner.loopStep P st tk).timeSample
          = st.timeSample + (k : ℚ) * (1000 / P.fps)) ∧
    (runner.runTicks fxParams runner.initState fxTicks).frame = 30 := by
  refine ⟨?_, ?_, ?_⟩
  · intro h
    unfold runner.loopStep
    rw [if_pos h]
  · intro h
    have hni : ¬ (tk.t - st.timeSample < 1000 / P.fps) := not_lt.mpr h
    constructor
    · unfold runner.loopStep
      rw [if_neg hni]
      rfl
    · unfold runner.loopStep
      rw [if_neg hni]
      exact runner.timeSample_advance st.timeSample tk.t P.fps hfps h
  · have h := (fxTicks_closed_form 100).2
    have : fxTicks = fxTicksUpTo 100 := rfl
    rw [this, h]

/-- Witness for C1 at concrete inputs: with default `fps = 30`, the tick
at 10 ms is skipped with the state unchanged and the tick at 40 ms is
accepted with the frame counter incremented. -/
theorem c1_time_gate_witness :
    runner.loopStep fxParams runner.initState ⟨10, 0, 0, 0, 0, false⟩
      = runner.initState ∧
    (runner.loopStep fxParams runner.initState ⟨40, 0, 0, 0, 0, false⟩).frame
      = runner.initState.frame + 1 :=
  ⟨(c1_time_gate fxParams runner.initState ⟨10, 0, 0, 0, 0, false⟩
      (by norm_num [fxParams])).1
      (by norm_num [fxParams, runner.initState]),
   ((c1_time_gate fxParams runner.initState ⟨40, 0, 0, 0, 0, false⟩
      (by norm_num [fxParams])).2.1
      (by norm_num [fxParams, runner.initState])).1⟩

/-! ## C4 - cursor update and previous-frame snapshot -/

/-- C4 counterexample: on a 2x2 grid with unit metrics, a pointer at raw
offset 5 clamps the frame's cursor to x = 1 (`Math.min(cols-1, ...)`),
but the next accepted frame reports `previous.x = 5` — the raw offset
divided by the metrics, *not* the prior frame's (clamped) cursor.  So
`previous` is not a snapshot of the prior frame's cursor. -/
theorem c4_counterexample :
    (runner.frameCursor fxParams runner.initState fxTickP1).x = 1 ∧
    (runner.frameCursor fxParams
        (runner.loopStep fxParams runner.initState fxTickP1) fxTickP2).p.x = 5 ∧
    ¬ ((runner.frameCursor fxParams
          (runner.loopStep fxParams runner.initState fxTickP1) fxTickP2).p.x
        = (runner.frameCursor fxParams runner.initState fxTickP1).x) := by
  have hgate : ¬ (fxTickP1.t - runner.initState.timeSample < 1000 / fxParams.fps) := by
    norm_num [fxTickP1, fxParams, runner.initState]
  have hstep : runner.loopStep fxParams runner.initState fxTickP1
      = runner.loopBody fxParams runner.initState fxTickP1 := by
    unfold runner.loopStep
    rw [if_neg hgate]
  have h1 : (runner.frameCursor fxParams runner.initState fxTickP1).x = 1 := by
    norm_num [runner.frameCursor, fxTickP1, fxParams, runner.initState, min_def]
  have h2 : (runner.frameCursor fxParams
      (runner.loopStep fxParams runner.initState fxTickP1) fxTickP2).p.x = 5 := by
    rw [hstep]
    norm_num [runner.frameCursor, runner.loopBody, fxTickP1, fxParams]
  refine ⟨h1, h2, ?_⟩
  rw [h1, h2]
  norm_num

/-- C4 (amended): at the start of every accepted frame the cursor is the
raw pointer offset divided by the cell metrics, clamped from above with
`Math.min` to the last valid column and row; the `previous` field holds
the *raw* prior-frame offset divided by the metrics together with the
prior pressed state (the clamp is not re-applied), which coincides with
the prior frame's cursor whenever that offset lay within the grid;
`previous` structurally carries no nested `previous` of its own.  After
moving from (1,1) to (2,2) across two accepted frames the cursor
reports (2,2) and `previous` reports (1,1). -/
theorem c4_cursor_amended (P : runner.Params) (st : runner.RunState)
    (tk tk2 : runner.Tick)
    (hacc : 1000 / P.fps ≤ tk.t - st.timeSample) :
    (runner.frameCursor P (runner.loopStep P st tk) tk2).p
        = ⟨tk.ptrX / P.cellWidth, tk.ptrY / P.lineHeight, tk.pressed⟩ ∧
    (tk.ptrX / P.cellWidth ≤ (tk.ctxCols : ℚ) - 1 →
     tk.ptrY / P.lineHeight ≤ (tk.ctxRows : ℚ) - 1 →
      (runner.frameCursor P (runner.loopStep P st tk) tk2).p
        = ⟨(runner.frameCursor P st tk).x, (runner.frameCursor P st tk).y,
           (runner.frameCursor P st tk).pressed⟩) ∧
    (runner.frameCursor fxParams
        (runner.loopStep fxParams runner.initState fxTickA) fxTickB).x = 2 ∧
    (runner.frameCursor fxParams
        (runner.loopStep fxParams runner.initState fxTickA) fxTickB).y = 2 ∧
    (runner.frameCursor fxParams
        (runner.loopStep fxParams runner.initState fxTickA) fxTickB).p
      = ⟨1, 1, false⟩ := by
  have hni : ¬ (tk.t - st.timeSample < 1000 / P.fps) := not_lt.mpr hacc
  have hstep : runner.loopStep P st tk = runner.loopBody P st tk := by
    unfold runner.loopStep
    rw [if_neg hni]
  have hgateA : ¬ (fxTickA.t - runner.initState.timeSample < 1000 / fxParams.fps) := by
    norm_num [fxTickA, fxParams, runner.initState]
  have hstepA : runner.loopStep fxParams runner.initState fxTickA
      = runner.loopBody fxParams runner.initState fxTickA := by
    unfold runner.loopStep
    rw [if_neg hgateA]
  refine ⟨?_, ?_, ?_, ?_, ?_⟩
  · rw [hstep]
    rfl
  · intro h1 h2
    rw [hstep]
    unfold runner.frameCursor runner.loopBody
    simp only [min_eq_right h1, min_eq_right h2]
  · rw [hstepA]
    norm_num [runner.frameCursor, runner.loopBody, fxTickA, fxTickB, fxParams, min_def]
  · rw [hstepA]
    norm_num [runner.frameCursor, runner.loopBody, fxTickA, fxTickB, fxParams, min_def]
  · rw [hstepA]
    norm_num [runner.frameCursor, runner.loopBody, fxTickA, fxTickB, fxParams]

/-- Witness for the amended C4 at concrete inputs: after the accepted
frame at tick A, the next frame's `previous` is tick A's raw offset
divided by the metrics together with its pressed state. -/
theorem c4_cursor_amended_witness :
    (runner.frameCursor fxParams
        (runner.loopStep fxParams runner.initState fxTickA) fxTickB).p
      = ⟨fxTickA.ptrX / fxParams.cellWidth, fxTickA.ptrY / fxParams.lineHeight,
         fxTickA.pressed⟩ :=
  (c4_cursor_amended fxParams runner.initState fxTickA fxTickB
    (by norm_num [fxTickA, fxParams, runner.initState])).1

/-! ## C8 - buffer recreation on resize and the length invariant -/

/-- The `main` pass inner loop preserves the buffer length (it only
writes via indexed assignment at indices inside the resized buffer). -/
theorem runner.mainCells_length (f : runner.Coordinate → runner.Cursor → List Cell → runner.MainOut)
    (cursor : runner.Cursor) (cols j : ℕ) (buf : List Cell) (n : ℕ) :
    (runner.mainCells f cursor cols j buf n).length = buf.length := by
  induction n with
  | zero => rfl
  | succ n ih => simp [runner.mainCells, ih]

/-- The `main` pass outer loop preserves the buffer length. -/
theorem runner.mainRows_length (f : runner.Coordinate → runner.Cursor → List Cell → runner.MainOut)
    (cursor : runner.Cursor) (cols : ℕ) (buf : List Cell) (r : ℕ) :
    (runner.mainRows f cursor cols buf r).length = buf.length := by
  induction r with
  | zero => rfl
  | succ r ih => simp [runner.mainRows, runner.mainCells_length, ih]

/-- The optional `main` pass preserves the buffer length. -/
theorem runner.mainApply_length (h : Option (runner.Coordinate → runner.Cursor → List Cell → runner.MainOut))
    (cursor : runner.Cursor) (cols rows : ℕ) (buf : List Cell) :
    (runner.mainApply h cursor cols rows buf).length = buf.length := by
  cases h with
  | none => rfl
  | some f => simp [runner.mainApply, runner.mainPass, runner.mainRows_length]

/-- The buffer after the resize step has length `cols*rows` whenever the
incoming state satisfies the length invariant. -/
theorem runner.resizeBuffer_length (P : runner.Params) (st : runner.RunState)
    (tk : runner.Tick)
    (hInv : ∀ c r, st.cols = some c → st.rows = some r → st.buffer.length = c * r) :
    (runner.resizeBuffer P st tk).length = tk.ctxCols * tk.ctxRows := by
  unfold runner.resizeBuffer
  split
  · simp
  · next hcond =>
      push_neg at hcond
      exact hInv _ _ hcond.1 hcond.2

/-- One loop invocation preserves the length invariant, given
length-preserving `pre`/`post` hooks. -/
theorem runner.loopStep_inv (P : runner.Params)
    (hpre : ∀ f, P.preF = some f → ∀ cur b, (f cur b).length = b.length)
    (hpost : ∀ f, P.postF = some f → ∀ cur b, (f cur b).length = b.length)
    (st : runner.RunState) (tk : runner.Tick)
    (hInv : ∀ c r, st.cols = some c → st.rows = some r → st.buffer.length = c * r) :
    ∀ c r, (runner.loopStep P st tk).cols = some c →
      (runner.loopStep P st tk).rows = some r →
      (runner.loopStep P st tk).buffer.length = c * r := by
  intro c r hc hr
  unfold runner.loopStep at hc hr ⊢
  by_cases hgate : tk.t - st.timeSample < 1000 / P.fps
  · rw [if_pos hgate] at hc hr ⊢
    exact hInv c r hc hr
  · rw [if_neg hgate] at hc hr ⊢
    have hc' : tk.ctxCols = c := by
      simpa [runner.loopBody] using hc
    have hr' : tk.ctxRows = r := by
      simpa [runner.loopBody] using hr
    have h0 : (runner.resizeBuffer P st tk).length = tk.ctxCols * tk.ctxRows :=
      runner.resizeBuffer_length P st tk hInv
    have h1 : (runner.hookApply P.preF (runner.frameCursor P st tk)
        (runner.resizeBuffer P st tk)).length = tk.ctxCols * tk.ctxRows := by
      cases hP : P.preF with
      | none => simpa [runner.hookApply] using h0
      | some f => rw [runner.hookApply, hpre f hP, h0]
    have h2 : (runner.mainApply P.mainF (runner.frameCursor P st tk) tk.ctxCols tk.ctxRows
        (runner.hookApply P.preF (runner.frameCursor P st tk)
          (runner.resizeBuffer P st tk))).length = tk.ctxCols * tk.ctxRows := by
      rw [runner.mainApply_length, h1]
    show (runner.loopBody P st tk).buffer.length = c * r
    have hbuf : (runner.loopBody P st tk).buffer
        = runner.hookApply P.postF (runner.frameCursor P st tk)
            (runner.mainApply P.mainF (runner.frameCursor P st tk) tk.ctxCols tk.ctxRows
              (runner.hookApply P.preF (runner.frameCursor P st tk)
                (runner.resizeBuffer P st tk))) := rfl
    rw [hbuf]
    cases hP : P.postF with
    | none => rw [runner.hookApply]; rw [h2, hc', hr']
    | some f => rw [runner.hookApply, hpost f hP, h2, hc', hr']

/-- Folding the loop over any tick list preserves the length invariant. -/
theorem runner.runTicks_inv (P : runner.Params)
    (hpre : ∀ f, P.preF = some f → ∀ cur b, (f cur b).length = b.length)
    (hpost : ∀ f, P.postF = some f → ∀ cur b, (f cur b).length = b.length) :
    ∀ (ticks : List runner.Tick) (st : runner.RunState),
      (∀ c r, st.cols = some c → st.rows = some r → st.buffer.length = c * r) →
      ∀ c r, (runner.runTicks P st ticks).cols = some c →
        (runner.runTicks P st ticks).rows = some r →
        (runner.runTicks P st ticks).buffer.length = c * r := by
  intro ticks
  induction ticks with
  | nil => intro st hInv; exact hInv
  | cons tk rest ih =>
      intro st hInv
      exact ih (runner.loopStep P st tk) (runner.loopStep_inv P hpre hpost st tk hInv)

/-- C8: whenever the measured grid dimensions differ from the tracked
ones, the scheduler recreates the cell buffer: the new buffer is exactly
`cols*rows` copies of the default empty cell (single-space glyph plus
the settings' default style), with no carry-over of old entries; and in
every run whose `pre`/`post` hooks preserve the buffer length, at the
end of every sequence of frames the buffer length equals the product of
the tracked grid dimensions. -/
theorem c8_resize_recreates_buffer (P : runner.Params)
    (hpre : ∀ f, P.preF = some f → ∀ cur b, (f cur b).length = b.length)
    (hpost : ∀ f, P.postF = some f → ∀ cur b, (f cur b).length = b.length) :
    (∀ (st : runner.RunState) (tk : runner.Tick),
      st.cols ≠ some tk.ctxCols ∨ st.rows ≠ some tk.ctxRows →
      runner.resizeBuffer P st tk
        = List.replicate (tk.ctxCols * tk.ctxRows) (runner.defaultEmptyCell P) ∧
      (runner.resizeBuffer P st tk).length = tk.ctxCols * tk.ctxRows ∧
      (∀ i < tk.ctxCols * tk.ctxRows,
        (runner.resizeBuffer P st tk).getD i {} = runner.defaultEmptyCell P)) ∧
    (∀ (ticks : List runner.Tick) (c r : ℕ),
      (runner.runTicks P runner.initState ticks).cols = some c →
      (runner.runTicks P runner.initState ticks).rows = some r →
      (runner.runTicks P runner.initState ticks).buffer.length = c * r) := by
  constructor
  · intro st tk hchange
    have hres : runner.resizeBuffer P st tk
        = List.replicate (tk.ctxCols * tk.ctxRows) (runner.defaultEmptyCell P) := by
      unfold runner.resizeBuffer
      rw [if_pos hchange]
    refine ⟨hres, ?_, ?_⟩
    · rw [hres]; simp
    · intro i hi
      rw [hres]
      rw [List.getD_eq_getElem?_getD, List.getElem?_replicate, if_pos hi]
      rfl
  · intro ticks c r hc hr
    exact runner.runTicks_inv P hpre hpost ticks runner.initState
      (by intro c' r' hc' hr'; cases hc') c r hc hr

/-- Witness for C8 at concrete inputs: a run with no hooks and a single
accepted tick measuring a 2x3 grid ends with a buffer of length 6. -/
theorem c8_resize_recreates_buffer_witness :
    (runner.runTicks fxParams runner.initState [fxTick23]).buffer.length = 2 * 3 := by
  have hgate : ¬ ((40 : ℚ) - runner.initState.timeSample < 1000 / fxParams.fps) := by
    norm_num [fxParams, runner.initState]
  have hc : (runner.runTicks fxParams runner.initState [fxTick23]).cols = some 2 := by
    simp [runner.runTicks, runner.loopStep, hgate, runner.loopBody, fxTick23]
  have hr : (runner.runTicks fxParams runner.initState [fxTick23]).rows = some 3 := by
    simp [runner.runTicks, runner.loopStep, hgate, runner.loopBody, fxTick23]
  exact (c8_resize_recreates_buffer fxParams
    (fun f hf => absurd hf (by simp [fxParams]))
    (fun f hf => absurd hf (by simp [fxParams]))).2 [fxTick23] 2 3 hc hr

/-! ## C2 - text-renderer row diffing -/

/-- The per-row comparison loop only writes shadow entries inside the
row's index range. -/
theorem textrenderer.renderCells_outside (buffer : List Cell) (offs : ℕ)
    (back : List (Option Cell)) (n : ℕ) :
    ∀ j, (j < offs ∨ offs + n ≤ j) →
      jsGet (textrenderer.renderCells buffer offs back n).1 j = jsGet back j := by
  induction n with
  | zero => intro j _; rfl
  | succ n ih =>
      intro j hj
      simp only [textrenderer.renderCells]
      split
      · exact ih j (by omega)
      · simp only []
        rw [jsarray.jsGet_jsSet_ne _ _ _ _ (by omega)]
        exact ih j (by omega)

/-- The `rowNeedsUpdate` flag of the per-row comparison loop is raised
exactly when some already-visited cell differs from the shadow. -/
theorem textrenderer.renderCells_flag (buffer : List Cell) (offs : ℕ)
    (back : List (Option Cell)) (n : ℕ) :
    (textrenderer.renderCells buffer offs back n).2 = true ↔
      ∃ i < n, textrenderer.isSameCell buffer[i + offs]? (jsGet back (i + offs)) = false := by
  induction n with
  | zero =>
      simp [textrenderer.renderCells]
  | succ n ih =>
      have htr : jsGet (textrenderer.renderCells buffer offs back n).1 (n + offs)
          = jsGet back (n + offs) :=
        textrenderer.renderCells_outside buffer offs back n (n + offs) (by omega)
      simp only [textrenderer.renderCells]
      split
      · next hsame =>
          rw [htr] at hsame
          rw [ih]
          constructor
          · rintro ⟨i, hi, hdiff⟩
            exact ⟨i, by omega, hdiff⟩
          · rintro ⟨i, hi, hdiff⟩
            refine ⟨i, ?_, hdiff⟩
            rcases Nat.lt_succ_iff_lt_or_eq.mp hi with h | h
            · exact h
            · exfalso; rw [h] at hdiff; rw [hdiff] at hsame; cases hsame
      · next hdiff =>
          rw [htr] at hdiff
          simp only [true_iff]
          exact ⟨n, by omega, by simpa using hdiff⟩

/-- Visited shadow entries after the per-row comparison loop: matched
cells keep the old shadow entry untouched, differing cells receive a
copy of the new cell. -/
theorem textrenderer.renderCells_entry (buffer : List Cell) (offs : ℕ)
    (back : List (Option Cell)) (n : ℕ) :
    ∀ i < n, jsGet (textrenderer.renderCells buffer offs back n).1 (i + offs)
      = if textrenderer.isSameCell buffer[i + offs]? (jsGet back (i + offs))
        then jsGet back (i + offs)
        else some (textrenderer.spreadCopy buffer[i + offs]?) := by
  induction n with
  | zero => intro i hi; omega
  | succ n ih =>
      intro i hi
      have htr : jsGet (textrenderer.renderCells buffer offs back n).1 (n + offs)
          = jsGet back (n + offs) :=
        textrenderer.renderCells_outside buffer offs back n (n + offs) (by omega)
      rcases Nat.lt_succ_iff_lt_or_eq.mp hi with hlt | heq
      · simp only [textrenderer.renderCells]
        split
        · exact ih i hlt
        · simp only []
          rw [jsarray.jsGet_jsSet_ne _ _ _ _ (by omega)]
          exact ih i hlt
      · subst heq
        simp only [textrenderer.renderCells]
        split
        · next hsame =>
            rw [htr] at hsame
            rw [if_pos hsame, htr]
        · next hdiff =>
            rw [htr] at hdiff
            have hdiff' : textrenderer.isSameCell buffer[i + offs]? (jsGet back (i + offs))
                = false := by simpa using hdiff
            rw [if_neg (by simp [hdiff'])]
            exact jsarray.jsGet_jsSet_self ..

/-- The row loop only writes shadow entries below `rows * cols`. -/
theorem textrenderer.renderRows_outside (buffer : List Cell) (cols : ℕ)
    (back : List (Option Cell)) (r : ℕ) :
    ∀ k, r * cols ≤ k →
      jsGet (textrenderer.renderRows buffer cols back r).1 k = jsGet back k := by
  induction r with
  | zero => intro k _; rfl
  | succ r ih =>
      intro k hk
      have hs : (r + 1) * cols = r * cols + cols := Nat.succ_mul r cols
      simp only [textrenderer.renderRows]
      rw [textrenderer.renderCells_outside _ _ _ _ k (by omega)]
      exact ih k (by omega)

/-- A row index enters the rewritten list exactly when it is in range
and some of its cells differs from the shadow. -/
theorem textrenderer.renderRows_mem (buffer : List Cell) (cols : ℕ)
    (back : List (Option Cell)) (r : ℕ) :
    ∀ jj, jj ∈ (textrenderer.renderRows buffer cols back r).2 ↔
      (jj < r ∧ textrenderer.rowDiff buffer back cols jj) := by
  induction r with
  | zero => intro jj; simp [textrenderer.renderRows]
  | succ r ih =>
      intro jj
      have hrowflag : (textrenderer.renderCells buffer (r * cols)
            (textrenderer.renderRows buffer cols back r).1 cols).2 = true ↔
          textrenderer.rowDiff buffer back cols r := by
        rw [textrenderer.renderCells_flag]
        unfold textrenderer.rowDiff
        constructor
        · rintro ⟨i, hi, hdiff⟩
          rw [textrenderer.renderRows_outside buffer cols back r (i + r * cols)
            (by omega)] at hdiff
          exact ⟨i, hi, hdiff⟩
        · rintro ⟨i, hi, hdiff⟩
          refine ⟨i, hi, ?_⟩
          rw [textrenderer.renderRows_outside buffer cols back r (i + r * cols)
            (by omega)]
          exact hdiff
      simp only [textrenderer.renderRows]
      split
      · next hflag =>
          have hD : textrenderer.rowDiff buffer back cols r := hrowflag.mp hflag
          simp only [List.mem_append, List.mem_singleton, ih]
          constructor
          · rintro (⟨hlt, hd⟩ | heq)
            · exact ⟨by omega, hd⟩
            · subst heq; exact ⟨by omega, hD⟩
          · rintro ⟨hlt, hd⟩
            rcases Nat.lt_succ_iff_lt_or_eq.mp hlt with h | h
            · exact Or.inl ⟨h, hd⟩
            · exact Or.inr h
      · next hflag =>
          have hND : ¬ textrenderer.rowDiff buffer back cols r := by
            intro hD
            exact hflag (hrowflag.mpr hD)
          rw [ih]
          constructor
          · rintro ⟨hlt, hd⟩
            exact ⟨by omega, hd⟩
          · rintro ⟨hlt, hd⟩
            rcases Nat.lt_succ_iff_lt_or_eq.mp hlt with h | h
            · exact ⟨h, hd⟩
            · exfalso; subst h; exact hND hd

/-- Shadow entries after the row loop: in each visited row, matched
cells keep the old shadow entry untouched and differing cells hold a
copy of the buffer cell. -/
theorem textrenderer.renderRows_entry (buffer : List Cell) (cols : ℕ)
    (back : List (Option Cell)) (r : ℕ) :
    ∀ jj < r, ∀ i < cols,
      jsGet (textrenderer.renderRows buffer cols back r).1 (i + jj * cols)
        = if textrenderer.isSameCell buffer[i + jj * cols]? (jsGet back (i + jj * cols))
          then jsGet back (i + jj * cols)
          else some (textrenderer.spreadCopy buffer[i + jj * cols]?) := by
  induction r with
  | zero => intro jj hjj; omega
  | succ r ih =>
      intro jj hjj i hi
      rcases Nat.lt_succ_iff_lt_or_eq.mp hjj with hlt | heq
      · have hub : (jj + 1) * cols ≤ r * cols :=
          Nat.mul_le_mul_right cols (Nat.succ_le_of_lt hlt)
        have hs : (jj + 1) * cols = jj * cols + cols := Nat.succ_mul jj cols
        simp only [textrenderer.renderRows]
        rw [textrenderer.renderCells_outside _ _ _ _ (i + jj * cols) (by omega)]
        exact ih jj hlt i hi
      · subst heq
        have htr : ∀ m, jj * cols ≤ m →
            jsGet (textrenderer.renderRows buffer cols back jj).1 m = jsGet back m :=
          fun m hm => textrenderer.renderRows_outside buffer cols back jj m hm
        simp only [textrenderer.renderRows]
        rw [textrenderer.renderCells_entry _ _ _ _ i hi]
        rw [htr (i + jj * cols) (by omega)]

set_option maxRecDepth 4000 in
/-- C2: at unchanged grid dimensions, a row's content is rewritten by
the text renderer exactly when at least one of its cells differs from
the shadow buffer in glyph, color, background color or font weight
(`isSameCell`), and for a row that is not rewritten none of its shadow
entries is touched.  On the concrete two consecutive 3x10-cell frames
differing only in one cell of row 2, exactly row 2 is rewritten. -/
theorem c2_text_renderer_diff (buffer : List Cell) (st : textrenderer.TRState)
    (c r : ℕ) (hc : st.cols = some c) (hr : st.rows = some r) :
    (∀ j < r, (j ∈ (textrenderer.render c r buffer st).2 ↔
        textrenderer.rowDiff buffer st.back c j)) ∧
    (∀ j < r, j ∉ (textrenderer.render c r buffer st).2 →
      ∀ i < c, jsGet (textrenderer.render c r buffer st).1.back (i + j * c)
        = jsGet st.back (i + j * c)) ∧
    (textrenderer.render 3 10 fxNewFrame fxTRState).2 = [2] := by
  have hback : (if st.rows ≠ some r ∨ st.cols ≠ some c then ([] : List (Option Cell))
      else st.back) = st.back := by
    rw [if_neg]
    push_neg
    exact ⟨hr, hc⟩
  have hrender2 : (textrenderer.render c r buffer st).2
      = (textrenderer.renderRows buffer c st.back r).2 := by
    unfold textrenderer.render
    rw [hback]
  have hrender1 : (textrenderer.render c r buffer st).1.back
      = (textrenderer.renderRows buffer c st.back r).1 := by
    unfold textrenderer.render
    rw [hback]
  refine ⟨?_, ?_, by decide⟩
  · intro j hj
    rw [hrender2, textrenderer.renderRows_mem]
    constructor
    · rintro ⟨_, hd⟩; exact hd
    · intro hd; exact ⟨hj, hd⟩
  · intro j hj hnotin i hi
    rw [hrender2, textrenderer.renderRows_mem] at hnotin
    have hnd : ¬ textrenderer.rowDiff buffer st.back c j := by
      intro hd; exact hnotin ⟨hj, hd⟩
    have hall : textrenderer.isSameCell buffer[i + j * c]? (jsGet st.back (i + j * c))
        = true := by
      by_contra hcon
      exact hnd ⟨i, hi, by simpa using hcon⟩
    rw [hrender1, textrenderer.renderRows_entry buffer c st.back r j hj i hi,
      if_pos hall]

set_option maxRecDepth 4000 in
/-- Witness for C2 at the concrete renderer example: the shadow holds
the previous 3x10 frame, the new frame differs only in row 2, and the
theorem's equivalence instantiates at row 2 (which does differ). -/
theorem c2_text_renderer_diff_witness :
    (2 ∈ (textrenderer.render 3 10 fxNewFrame fxTRState).2 ↔
      textrenderer.rowDiff fxNewFrame fxTRState.back 3 2) ∧
    textrenderer.rowDiff fxNewFrame fxTRState.back 3 2 :=
  ⟨(c2_text_renderer_diff fxNewFrame fxTRState 3 10 rfl rfl).1 2 (by decide),
   by decide⟩

/-! ## C9 / C10 - mergeText layout lemmas -/

/-- An in-bounds `merge` stores the merged cell at index `x + y*cols`. -/
theorem buffer.merge_entry_self (val : buffer.CellValue) (cx cy : ℤ)
    (tgt : buffer.BBuf) (cols rows : ℤ)
    (hx0 : 0 ≤ cx) (hxc : cx < cols) (hy0 : 0 ≤ cy) (hyr : cy < rows) :
    jsGet (buffer.merge val cx cy tgt cols rows) (cx + cy * cols).toNat
      = some (.obj (buffer.mergeResultCell val (jsGet tgt (cx + cy * cols).toNat))) := by
  unfold buffer.merge
  rw [if_neg (by omega), if_neg (by omega)]
  cases val with
  | obj v => simp only [buffer.mergeResultCell]; exact jsarray.jsGet_jsSet_self ..
  | prim g => simp only [buffer.mergeResultCell]; exact jsarray.jsGet_jsSet_self ..

/-- `merge` leaves every other index untouched, and is the identity out
of bounds. -/
theorem buffer.merge_entry_ne (val : buffer.CellValue) (cx cy : ℤ)
    (tgt : buffer.BBuf) (cols rows : ℤ) (j : ℕ)
    (h : (¬ (0 ≤ cx ∧ cx < cols ∧ 0 ≤ cy ∧ cy < rows)) ∨ j ≠ (cx + cy * cols).toNat) :
    jsGet (buffer.merge val cx cy tgt cols rows) j = jsGet tgt j := by
  unfold buffer.merge
  by_cases h1 : cx < 0 ∨ cx ≥ cols
  · rw [if_pos h1]
  · rw [if_neg h1]
    by_cases h2 : cy < 0 ∨ cy ≥ rows
    · rw [if_pos h2]
    · rw [if_neg h2]
      have hj : j ≠ (cx + cy * cols).toNat := by
        rcases h with h | h
        · exact absurd ⟨by omega, by omega, by omega, by omega⟩ h
        · exact h
      cases val with
      | obj v => exact jsarray.jsGet_jsSet_ne _ _ _ _ hj
      | prim g => exact jsarray.jsGet_jsSet_ne _ _ _ _ hj

/-- Distinct in-range columns of the same row have distinct buffer
indices. -/
theorem buffer.idx_ne_same_row (a b row cols : ℤ) (ha0 : 0 ≤ a) (hb0 : 0 ≤ b)
    (hrow : 0 ≤ row) (hcols : 0 ≤ cols) (hab : a ≠ b) :
    (a + row * cols).toNat ≠ (b + row * cols).toNat := by
  have hR : 0 ≤ row * cols := mul_nonneg hrow hcols
  omega

/-- In-range cells of a lower row have a strictly smaller buffer index
than in-range cells of a higher row. -/
theorem buffer.idx_ne_diff_row (a b r1 r2 cols : ℤ)
    (ha0 : 0 ≤ a) (hac : a < cols) (hb0 : 0 ≤ b) (_hbc : b < cols)
    (hr1 : 0 ≤ r1) (hlt : r1 < r2) :
    (a + r1 * cols).toNat ≠ (b + r2 * cols).toNat := by
  have h1 : (r1 + 1) * cols ≤ r2 * cols :=
    mul_le_mul_of_nonneg_right (by omega) (by omega)
  have h2 : (r1 + 1) * cols = r1 * cols + cols := by ring
  have hR1 : 0 ≤ r1 * cols := mul_nonneg hr1 (by omega)
  have hR2 : 0 ≤ r2 * cols := le_trans hR1 (by omega)
  omega

/-- A `merge` whose value carries no `text` field never changes the
`text` component of any entry (it can only copy the existing one). -/
theorem buffer.merge_text_component (val : buffer.CellValue) (cx cy : ℤ)
    (tgt : buffer.BBuf) (cols rows : ℤ)
    (hv : ∀ v, val = .obj v → v.text = none) (j : ℕ) :
    (buffer.flattenStored (jsGet (buffer.merge val cx cy tgt cols rows) j)).text
      = (buffer.flattenStored (jsGet tgt j)).text := by
  by_cases hb : (0 ≤ cx ∧ cx < cols ∧ 0 ≤ cy ∧ cy < rows)
  · by_cases hj : j = (cx + cy * cols).toNat
    · subst hj
      rw [buffer.merge_entry_self val cx cy tgt cols rows hb.1 hb.2.1 hb.2.2.1 hb.2.2.2]
      cases val with
      | obj v =>
          have hvt : v.text = none := hv v rfl
          simp [buffer.flattenStored, buffer.mergeResultCell, spreadCells, hvt, oMerge]
      | prim g =>
          simp [buffer.flattenStored, buffer.mergeResultCell]
    · rw [buffer.merge_entry_ne val cx cy tgt cols rows j (Or.inr hj)]
  · rw [buffer.merge_entry_ne val cx cy tgt cols rows j (Or.inl hb)]

/-- The per-line loop writes only at in-range columns at or after the
current character position, all in its own row. -/
theorem buffer.mergeLineChars_outside (mObj : Option Cell) (x row cols rows : ℤ) :
    ∀ (cs : List Char) (n : ℕ) (col : ℤ) (tgt : buffer.BBuf) (j : ℕ),
      (∀ a : ℤ, x + n ≤ a → 0 ≤ a → a < cols → 0 ≤ row → row < rows →
        j ≠ (a + row * cols).toNat) →
      jsGet (buffer.mergeLineChars mObj x row cols rows cs n col tgt).2 j
        = jsGet tgt j := by
  intro cs
  induction cs with
  | nil => intro n col tgt j _; rfl
  | cons c cs ih =>
      intro n col tgt j hj
      show jsGet (buffer.mergeLineChars mObj x row cols rows cs (n + 1) (x + (n : ℤ))
          (buffer.merge (buffer.charVal c mObj) (x + (n : ℤ)) row tgt cols rows)).2 j
        = jsGet tgt j
      rw [ih (n + 1) (x + (n : ℤ)) _ j ?_]
      · apply buffer.merge_entry_ne
        by_cases hb : (0 ≤ x + (n : ℤ) ∧ x + (n : ℤ) < cols ∧ 0 ≤ row ∧ row < rows)
        · exact Or.inr (hj (x + (n : ℤ)) (by omega) hb.1 hb.2.1 hb.2.2.1 hb.2.2.2)
        · exact Or.inl hb
      · intro a ha ha0 hac hr0 hrr
        exact hj a (by push_cast at ha ⊢; omega) ha0 hac hr0 hrr

/-- The entry written for the `m`-th remaining character of a line: the
previous entry merged with that character's cell value; later characters
of the line do not touch it. -/
theorem buffer.mergeLineChars_entry (mObj : Option Cell) (x row cols rows : ℤ) :
    ∀ (cs : List Char) (n : ℕ) (col : ℤ) (tgt : buffer.BBuf) (m : ℕ) (hm : m < cs.length),
      0 ≤ x + (n : ℤ) + m → x + (n : ℤ) + m < cols → 0 ≤ row → row < rows →
      jsGet (buffer.mergeLineChars mObj x row cols rows cs n col tgt).2
          (x + (n : ℤ) + m + row * cols).toNat
        = some (.obj (buffer.mergeResultCell (buffer.charVal (cs.get ⟨m, hm⟩) mObj)
            (jsGet tgt (x + (n : ℤ) + m + row * cols).toNat))) := by
  intro cs
  induction cs with
  | nil => intro n col tgt m hm; exact absurd hm (by simp)
  | cons c cs ih =>
      intro n col tgt m hm hx0 hxc hr0 hrr
      show jsGet (buffer.mergeLineChars mObj x row cols rows cs (n + 1) (x + (n : ℤ))
          (buffer.merge (buffer.charVal c mObj) (x + (n : ℤ)) row tgt cols rows)).2 _
        = _
      cases m with
      | zero =>
          simp only [Nat.cast_zero, add_zero] at hx0 hxc ⊢
          rw [buffer.mergeLineChars_outside mObj x row cols rows cs (n + 1) (x + (n : ℤ))
            _ _ ?_]
          · exact buffer.merge_entry_self _ _ _ _ _ _ hx0 hxc hr0 hrr
          · intro a ha ha0 hac _ _
            apply buffer.idx_ne_same_row (x + (n : ℤ)) a row cols hx0 ha0 hr0 (by omega)
            push_cast at ha
            omega
      | succ m' =>
          have hm' : m' < cs.length := by simpa using Nat.lt_of_succ_lt_succ hm
          have hshift : x + (n : ℤ) + (m' + 1 : ℕ) = x + ((n + 1 : ℕ) : ℤ) + m' := by
            push_cast; ring
          rw [hshift] at hx0 hxc ⊢
          have hel : (c :: cs).get ⟨m' + 1, hm⟩ = cs.get ⟨m', hm'⟩ := rfl
          rw [hel]
          rw [ih (n + 1) (x + (n : ℤ)) _ m' hm' hx0 hxc hr0 hrr]
          rw [buffer.merge_entry_ne]
          by_cases hb : (0 ≤ x + (n : ℤ) ∧ x + (n : ℤ) < cols ∧ 0 ≤ row ∧ row < rows)
          · refine Or.inr ?_
            apply buffer.idx_ne_same_row (x + ((n + 1 : ℕ) : ℤ) + m') (x + (n : ℤ))
              row cols hx0 hb.1 hr0 (by omega)
            push_cast
            omega
          · exact Or.inl hb

/-- The line loop writes only at in-range columns of rows at or below
the current row. -/
theorem buffer.mergeTextLines_outside (mObj : Option Cell) (x cols rows : ℤ) :
    ∀ (lines : List (List Char)) (col row : ℤ) (ws : List buffer.WrapInfo)
      (tgt : buffer.BBuf) (j : ℕ),
      (∀ (rr a : ℤ), row ≤ rr → 0 ≤ a → a < cols → 0 ≤ rr → rr < rows →
        j ≠ (a + rr * cols).toNat) →
      jsGet (buffer.mergeTextLines mObj x cols rows lines col row ws tgt).2.2.2 j
        = jsGet tgt j := by
  intro lines
  induction lines with
  | nil => intro col row ws tgt j _; rfl
  | cons line rest ih =>
      intro col row ws tgt j hj
      simp only [buffer.mergeTextLines]
      rw [ih _ _ _ _ j ?_]
      · exact buffer.mergeLineChars_outside mObj x row cols rows line 0 col tgt j
          (fun a _ ha0 hac hr0 hrr => hj row a (le_refl row) ha0 hac hr0 hrr)
      · intro rr a hrr1 ha0 hac hr0 hrr2
        exact hj rr a (by omega) ha0 hac hr0 hrr2

/-- The entry written for the `m`-th character of the `l`-th line of the
line loop: the original entry at that position merged with the
character's cell value (earlier and later lines write other rows, later
characters of the same line write other columns). -/
theorem buffer.mergeTextLines_entry (mObj : Option Cell) (x cols rows : ℤ) :
    ∀ (lines : List (List Char)) (col row : ℤ) (ws : List buffer.WrapInfo)
      (tgt : buffer.BBuf) (l : ℕ) (hl : l < lines.length) (m : ℕ)
      (hm : m < (lines.get ⟨l, hl⟩).length),
      0 ≤ x + (m : ℤ) → x + (m : ℤ) < cols →
      0 ≤ row + (l : ℤ) → row + (l : ℤ) < rows →
      jsGet (buffer.mergeTextLines mObj x cols rows lines col row ws tgt).2.2.2
          (x + (m : ℤ) + (row + (l : ℤ)) * cols).toNat
        = some (.obj (buffer.mergeResultCell
            (buffer.charVal ((lines.get ⟨l, hl⟩).get ⟨m, hm⟩) mObj)
            (jsGet tgt (x + (m : ℤ) + (row + (l : ℤ)) * cols).toNat))) := by
  intro lines
  induction lines with
  | nil => intro col row ws tgt l hl; exact absurd hl (by simp)
  | cons line rest ih =>
      intro col row ws tgt l hl m hm hx0 hxc hr0 hrr
      simp only [buffer.mergeTextLines]
      cases l with
      | zero =>
          simp only [Nat.cast_zero, add_zero] at hr0 hrr ⊢
          rw [buffer.mergeTextLines_outside mObj x cols rows rest _ _ _ _ _ ?_]
          · have hbase := buffer.mergeLineChars_entry mObj x row cols rows line 0 col
              tgt m (by exact hm) (by simpa using hx0) (by simpa using hxc) hr0 hrr
            simpa using hbase
          · intro rr a hrr1 ha0 hac hrc0 hrc2
            exact buffer.idx_ne_diff_row (x + (m : ℤ)) a row rr cols
              hx0 hxc ha0 hac hr0 (by omega)
      | succ l' =>
          have hl' : l' < rest.length := by simpa using Nat.lt_of_succ_lt_succ hl
          have hshift : row + ((l' + 1 : ℕ) : ℤ) = (row + 1) + (l' : ℤ) := by
            push_cast; ring
          rw [hshift] at hr0 hrr ⊢
          have hel : (line :: rest).get ⟨l' + 1, hl⟩ = rest.get ⟨l', hl'⟩ := rfl
          have hm' : m < (rest.get ⟨l', hl'⟩).length := by rw [← hel]; exact hm
          rw [ih _ _ _ _ l' hl' m hm' hx0 hxc hr0 hrr]
          have hentry : jsGet (buffer.mergeLineChars mObj x row cols rows line 0 col
              tgt).2 (x + (m : ℤ) + ((row + 1) + (l' : ℤ)) * cols).toNat
              = jsGet tgt (x + (m : ℤ) + ((row + 1) + (l' : ℤ)) * cols).toNat := by
            apply buffer.mergeLineChars_outside
            intro a _ ha0 hac hrc0 hrc2
            exact (buffer.idx_ne_diff_row a (x + (m : ℤ)) row ((row + 1) + (l' : ℤ))
              cols ha0 hac hx0 hxc hrc0 (by omega)).symm
          rw [hentry]
          rfl

/-- The per-character merged value carries no `text` field when the
merge object carries none. -/
theorem buffer.cvCell_text (c : Char) (mObj : Option Cell)
    (hm : ∀ mo, mObj = some mo → mo.text = none) :
    (buffer.cvCell c mObj).text = none := by
  cases mObj with
  | none => rfl
  | some mo =>
      have := hm mo rfl
      simp [buffer.cvCell, spreadCells, oMerge, this]

/-- The per-line loop never changes the `text` component of any entry. -/
theorem buffer.mergeLineChars_text (mObj : Option Cell)
    (hm : ∀ mo, mObj = some mo → mo.text = none) (x row cols rows : ℤ) :
    ∀ (cs : List Char) (n : ℕ) (col : ℤ) (tgt : buffer.BBuf) (j : ℕ),
      (buffer.flattenStored (jsGet
          (buffer.mergeLineChars mObj x row cols rows cs n col tgt).2 j)).text
        = (buffer.flattenStored (jsGet tgt j)).text := by
  intro cs
  induction cs with
  | nil => intro n col tgt j; rfl
  | cons c cs ih =>
      intro n col tgt j
      show (buffer.flattenStored (jsGet
          (buffer.mergeLineChars mObj x row cols rows cs (n + 1) (x + (n : ℤ))
            (buffer.merge (buffer.charVal c mObj) (x + (n : ℤ)) row tgt cols rows)).2
          j)).text = _
      rw [ih]
      apply buffer.merge_text_component
      intro v hv
      have hv' : v = buffer.cvCell c mObj := by
        simpa [buffer.charVal] using hv.symm
      rw [hv']
      exact buffer.cvCell_text c mObj hm

/-- The line loop never changes the `text` component of any entry. -/
theorem buffer.mergeTextLines_text (mObj : Option Cell)
    (hm : ∀ mo, mObj = some mo → mo.text = none) (x cols rows : ℤ) :
    ∀ (lines : List (List Char)) (col row : ℤ) (ws : List buffer.WrapInfo)
      (tgt : buffer.BBuf) (j : ℕ),
      (buffer.flattenStored (jsGet
          (buffer.mergeTextLines mObj x cols rows lines col row ws tgt).2.2.2 j)).text
        = (buffer.flattenStored (jsGet tgt j)).text := by
  intro lines
  induction lines with
  | nil => intro col row ws tgt j; rfl
  | cons line rest ih =>
      intro col row ws tgt j
      simp only [buffer.mergeTextLines]
      rw [ih]
      exact buffer.mergeLineChars_text mObj hm x row cols rows line 0 col tgt j

/-- The `col` variable after merging a nonempty line points at the last
character of the line. -/
theorem buffer.mergeLineChars_col (mObj : Option Cell) (x row cols rows : ℤ) :
    ∀ (cs : List Char) (n : ℕ) (col : ℤ) (tgt : buffer.BBuf), cs ≠ [] →
      (buffer.mergeLineChars mObj x row cols rows cs n col tgt).1
        = x + ((n + cs.length - 1 : ℕ) : ℤ) := by
  intro cs
  induction cs with
  | nil => intro n col tgt h; exact absurd rfl h
  | cons c cs ih =>
      intro n col tgt _
      show (buffer.mergeLineChars mObj x row cols rows cs (n + 1) (x + (n : ℤ))
          (buffer.merge (buffer.charVal c mObj) (x + (n : ℤ)) row tgt cols rows)).1
        = _
      cases cs with
      | nil =>
          show x + (n : ℤ) = x + ((n + 1 - 1 : ℕ) : ℤ)
          norm_num
      | cons c' cs' =>
          rw [ih (n + 1) (x + (n : ℤ)) _ (by simp)]
          have : n + 1 + (c' :: cs').length - 1 = n + (c :: c' :: cs').length - 1 := by
            simp only [List.length_cons]
            omega
          rw [this]

/-- The `row` variable advances once per line. -/
theorem buffer.mergeTextLines_row (mObj : Option Cell) (x cols rows : ℤ) :
    ∀ (lines : List (List Char)) (col row : ℤ) (ws : List buffer.WrapInfo)
      (tgt : buffer.BBuf),
      (buffer.mergeTextLines mObj x cols rows lines col row ws tgt).2.1
        = row + (lines.length : ℤ) := by
  intro lines
  induction lines with
  | nil => intro col row ws tgt; simp [buffer.mergeTextLines]
  | cons line rest ih =>
      intro col row ws tgt
      simp only [buffer.mergeTextLines]
      rw [ih]
      simp only [List.length_cons]
      push_cast
      ring

/-- The final `col` points at the last character of the last line when
every line is nonempty. -/
theorem buffer.mergeTextLines_col (mObj : Option Cell) (x cols rows : ℤ) :
    ∀ (lines : List (List Char)) (h : lines ≠ []) (col row : ℤ)
      (ws : List buffer.WrapInfo) (tgt : buffer.BBuf),
      (∀ line ∈ lines, line ≠ ([] : List Char)) →
      (buffer.mergeTextLines mObj x cols rows lines col row ws tgt).1
        = x + (((lines.getLast h).length - 1 : ℕ) : ℤ) := by
  intro lines
  induction lines with
  | nil => intro h; exact absurd rfl h
  | cons line rest ih =>
      intro h col row ws tgt hne
      simp only [buffer.mergeTextLines]
      cases rest with
      | nil =>
          show (buffer.mergeLineChars mObj x row cols rows line 0 col tgt).1
            = x + ((([line].getLast h).length - 1 : ℕ) : ℤ)
          rw [buffer.mergeLineChars_col mObj x row cols rows line 0 col tgt
            (hne line (by simp))]
          simp
      | cons r' rest' =>
          rw [ih (by simp) _ _ _ _ (fun l hl => hne l (by simp [hl]))]
          rfl

set_option maxRecDepth 8000 in
/-- C9 counterexample: `mergeText('AB\nCD', 0, 0)` into a 2x2 buffer
returns `offset.col = 1`, the column *of* the last inserted character
(`D` sits at index 3, i.e. column 1 of row 1) — not the column just past
it, which would be 2. -/
theorem c9_counterexample :
    (buffer.mergeText (.strArg "AB\nCD") 0 0 fxBuf22 2 2).1.offsetCol = 1 ∧
    jsGet (buffer.mergeText (.strArg "AB\nCD") 0 0 fxBuf22 2 2).2 3
      = some (.obj { char := some (.str "D") }) ∧
    ¬ ((buffer.mergeText (.strArg "AB\nCD") 0 0 fxBuf22 2 2).1.offsetCol = 2) := by
  refine ⟨by decide, by decide, by decide⟩

set_option maxRecDepth 8000 in
/-- C9 (amended): `mergeText` splits its text on line breaks and merges
each line's characters left-to-right starting at column `x`, one row
per line (the `m`-th character of the `l`-th line is merged into the
existing cell at `(x+m, y+l)` whenever in bounds); it returns the
coordinate *of* the last inserted character — row `y + lines - 1`, and,
when every line is nonempty, column `x + lastLine.length - 1` — together
with the first and last inserted cell of each line.  Concretely,
`mergeText('AB\nCD',0,0)` into a 2x2 buffer yields A,B,C,D in row-major
order and returns offset `{col:1,row:1}`. -/
theorem c9_mergeText_amended (textObj : buffer.TextArg) (x y : ℤ)
    (target : buffer.BBuf) (cols rows : ℤ) :
    (∀ (l : ℕ) (hl : l < (buffer.splitLines (buffer.textStrOf textObj).data).length)
       (m : ℕ)
       (hm : m < ((buffer.splitLines (buffer.textStrOf textObj).data).get ⟨l, hl⟩).length),
      0 ≤ x + (m : ℤ) → x + (m : ℤ) < cols →
      0 ≤ y + (l : ℤ) → y + (l : ℤ) < rows →
      jsGet (buffer.mergeText textObj x y target cols rows).2
          (x + (m : ℤ) + (y + (l : ℤ)) * cols).toNat
        = some (.obj (buffer.mergeResultCell
            (buffer.charVal
              (((buffer.splitLines (buffer.textStrOf textObj).data).get ⟨l, hl⟩).get ⟨m, hm⟩)
              (buffer.mObjOf textObj))
            (jsGet target (x + (m : ℤ) + (y + (l : ℤ)) * cols).toNat)))) ∧
    (buffer.mergeText textObj x y target cols rows).1.offsetRow
      = y + ((buffer.splitLines (buffer.textStrOf textObj).data).length : ℤ) - 1 ∧
    (∀ lastLine : List Char,
      (buffer.splitLines (buffer.textStrOf textObj).data).getLast? = some lastLine →
      (∀ line ∈ buffer.splitLines (buffer.textStrOf textObj).data, line ≠ ([] : List Char)) →
      (buffer.mergeText textObj x y target cols rows).1.offsetCol
        = x + ((lastLine.length - 1 : ℕ) : ℤ)) ∧
    buffer.mergeText (.strArg "AB\nCD") 0 0 fxBuf22 2 2
      = (⟨1, 1,
          [⟨some (.obj { char := some (.str "A") }), some (.obj { char := some (.str "B") })⟩,
           ⟨some (.obj { char := some (.str "C") }), some (.obj { char := some (.str "D") })⟩]⟩,
         [some (.obj { char := some (.str "A") }), some (.obj { char := some (.str "B") }),
          some (.obj { char := some (.str "C") }), some (.obj { char := some (.str "D") })]) := by
  have hlines : 1 ≤ (buffer.splitLines (buffer.textStrOf textObj).data).length := by
    show 1 ≤ (_ :: _).length
    simp
  refine ⟨?_, ?_, ?_, by decide⟩
  · intro l hl m hm hx0 hxc hy0 hyr
    exact buffer.mergeTextLines_entry (buffer.mObjOf textObj) x cols rows
      (buffer.splitLines (buffer.textStrOf textObj).data) x y [] target
      l hl m hm hx0 hxc hy0 hyr
  · show max y ((buffer.mergeTextLines (buffer.mObjOf textObj) x cols rows
        (buffer.splitLines (buffer.textStrOf textObj).data) x y [] target).2.1 - 1) = _
    rw [buffer.mergeTextLines_row]
    omega
  · intro lastLine hlast hne
    have hnn : buffer.splitLines (buffer.textStrOf textObj).data ≠ [] := by
      intro hcon
      rw [hcon] at hlast
      cases hlast
    show (buffer.mergeTextLines (buffer.mObjOf textObj) x cols rows
        (buffer.splitLines (buffer.textStrOf textObj).data) x y [] target).1 = _
    rw [buffer.mergeTextLines_col (buffer.mObjOf textObj) x cols rows
      (buffer.splitLines (buffer.textStrOf textObj).data) hnn x y [] target hne]
    rw [List.getLast?_eq_getLast _ hnn] at hlast
    cases hlast
    rfl

set_option maxRecDepth 8000 in
/-- Witness for the amended C9 at the concrete example: the cell at
`(1,1)` of the 2x2 buffer is the old cell merged with the `'D'` of the
second line. -/
theorem c9_mergeText_amended_witness :
    jsGet (buffer.mergeText (.strArg "AB\nCD") 0 0 fxBuf22 2 2).2
        ((0 : ℤ) + ((1 : ℕ) : ℤ) + ((0 : ℤ) + ((1 : ℕ) : ℤ)) * 2).toNat
      = some (.obj (buffer.mergeResultCell
          (buffer.charVal
            (((buffer.splitLines (buffer.textStrOf (.strArg "AB\nCD")).data).get
                ⟨1, by decide⟩).get ⟨1, by decide⟩)
            (buffer.mObjOf (.strArg "AB\nCD")))
          (jsGet fxBuf22 ((0 : ℤ) + ((1 : ℕ) : ℤ) + ((0 : ℤ) + ((1 : ℕ) : ℤ)) * 2).toNat))) :=
  (c9_mergeText_amended (.strArg "AB\nCD") 0 0 fxBuf22 2 2).1 1 (by decide) 1 (by decide)
    (by decide) (by decide) (by decide) (by decide)

set_option maxRecDepth 8000 in
/-- C10 counterexample: a styled text object that itself carries a
`char` field overrides the per-character glyph — merging
`{text:'A', char:'Z'}` writes `char = 'Z'`, not the line's character
`'A'`. -/
theorem c10_counterexample :
    jsGet (buffer.mergeText (.objArg { char := some (.str "Z") } "A") 0 0
        [some (.obj {})] 1 1).2 0
      = some (.obj { char := some (.str "Z") }) ∧
    some (buffer.CellValue.obj { char := some (.str "Z") })
      ≠ some (buffer.CellValue.obj { char := some (.str "A") }) :=
  ⟨by decide, by decide⟩

/-- C10 (amended): the `text` property is stripped from the style
fields before any per-character merge, so `mergeText` never changes the
`text` component of any buffer cell (in particular a buffer without
`text` fields never acquires one); when the object carries no `char`
field of its own, the value merged for each character holds exactly the
line's character as `char` plus the object's remaining style fields
(`color`, `backgroundColor`, `fontWeight`), and that value is merged
onto the existing in-bounds cell; an object-level `char` field would
override the per-character glyph. -/
theorem c10_text_stripped (c : Cell) (text : String) (x y : ℤ)
    (target : buffer.BBuf) (cols rows : ℤ) :
    (∀ j : ℕ, (buffer.flattenStored (jsGet
        (buffer.mergeText (.objArg c text) x y target cols rows).2 j)).text
      = (buffer.flattenStored (jsGet target j)).text) ∧
    (∀ ch : Char, c.char = none →
      (buffer.cvCell ch (buffer.mObjOf (.objArg c text))).char
          = some (.str (String.singleton ch)) ∧
      (buffer.cvCell ch (buffer.mObjOf (.objArg c text))).color = c.color ∧
      (buffer.cvCell ch (buffer.mObjOf (.objArg c text))).backgroundColor
          = c.backgroundColor ∧
      (buffer.cvCell ch (buffer.mObjOf (.objArg c text))).fontWeight = c.fontWeight ∧
      (buffer.cvCell ch (buffer.mObjOf (.objArg c text))).text = none) ∧
    (∀ (l : ℕ) (hl : l < (buffer.splitLines text.data).length) (m : ℕ)
       (hm : m < ((buffer.splitLines text.data).get ⟨l, hl⟩).length),
      0 ≤ x + (m : ℤ) → x + (m : ℤ) < cols →
      0 ≤ y + (l : ℤ) → y + (l : ℤ) < rows →
      jsGet (buffer.mergeText (.objArg c text) x y target cols rows).2
          (x + (m : ℤ) + (y + (l : ℤ)) * cols).toNat
        = some (.obj (buffer.mergeResultCell
            (buffer.charVal (((buffer.splitLines text.data).get ⟨l, hl⟩).get ⟨m, hm⟩)
              (buffer.mObjOf (.objArg c text)))
            (jsGet target (x + (m : ℤ) + (y + (l : ℤ)) * cols).toNat)))) := by
  have hm : ∀ mo, buffer.mObjOf (.objArg c text) = some mo → mo.text = none := by
    intro mo hmo
    have : mo = { c with text := none } := by
      simpa [buffer.mObjOf] using hmo.symm
    rw [this]
  refine ⟨?_, ?_, ?_⟩
  · intro j
    show (buffer.flattenStored (jsGet (buffer.mergeTextLines
        (buffer.mObjOf (.objArg c text)) x cols rows
        (buffer.splitLines (buffer.textStrOf (.objArg c text)).data) x y [] target).2.2.2
        j)).text = _
    exact buffer.mergeTextLines_text (buffer.mObjOf (.objArg c text)) hm x cols rows
      (buffer.splitLines (buffer.textStrOf (.objArg c text)).data) x y [] target j
  · intro ch hc
    have hnone : ∀ {α : Type} (b : Option α), oMerge none b = b := by
      intro α b; cases b <;> rfl
    have hnone2 : ∀ {α : Type} (a : Option α), oMerge a none = a := fun _ => rfl
    refine ⟨?_, ?_, ?_, ?_, ?_⟩ <;>
      simp [buffer.cvCell, buffer.mObjOf, spreadCells, hc, hnone, hnone2]
  · intro l hl m hm2 hx0 hxc hy0 hyr
    exact buffer.mergeTextLines_entry (buffer.mObjOf (.objArg c text)) x cols rows
      (buffer.splitLines text.data) x y [] target l hl m hm2 hx0 hxc hy0 hyr

/-- Witness for the amended C10 at concrete inputs: for the styled
object `{text:'A', color:'red'}` (no `char` field), the merged
per-character value is `{char:'A', color:'red'}` with no `text` field. -/
theorem c10_text_stripped_witness :
    (buffer.cvCell 'A' (buffer.mObjOf (.objArg { color := some "red" } "A"))).char
        = some (.str (String.singleton 'A')) ∧
    (buffer.cvCell 'A' (buffer.mObjOf (.objArg { color := some "red" } "A"))).color
        = some "red" ∧
    (buffer.cvCell 'A' (buffer.mObjOf (.objArg { color := some "red" } "A"))).text
        = none := by
  obtain ⟨h1, h2, _, _, h5⟩ :=
    (c10_text_stripped { color := some "red" } "A" 0 0 [some (.obj {})] 1 1).2.1 'A' rfl
  exact ⟨h1, h2, h5⟩
